import Mathlib

/-!
# appimagetool-mini: MD5 digest engine, ELF section locator and digest embedding

A shallow embedding of `appimagetool.cpp` (class `md5`,
`appimage_get_elf_section_offset_and_length`, and part 3 of `main`) together
with the properties of the pipeline that are proved about it.

Conventions of the embedding:
* a byte is a `Fin 256`; a `std::string` is a `List Byte`;
* `uint32_t` values are natural numbers kept below `2^32` by an explicit
  `% 2^32` after every addition or shift that can overflow;
* `size_t` and `uint64_t` are 64 bits wide.
-/

/-- One byte of a `std::string` / of a file. -/
abbrev Byte := Fin 256

/-- Truncation of a natural number to a byte (conversion to `char`). -/
def toByte (n : Nat) : Byte := ⟨n % 256, Nat.mod_lt _ (by decide)⟩

/-- Value of a byte string read as a little-endian integer. -/
def le_value : List Byte → Nat
  | [] => 0
  | b :: bs => b.val + 256 * le_value bs

/-- Little-endian encoding of `x` in `n` bytes. -/
def le_bytes (n x : Nat) : List Byte := (List.range n).map fun k => toByte (x / 256 ^ k)

/-! ## The class `md5` -/

namespace md5

/-- `using word = uint32_t`. -/
abbrev word := Nat

/-- `constexpr static size_t size = 16`. -/
def size : Nat := 16

/-- The union `md5_t`, seen through its named words `A, B, C, D`. -/
structure md5_t where
  A : word
  B : word
  C : word
  D : word
deriving DecidableEq, Repr

/-- The four bytes of a 32-bit word in little-endian order. -/
def word_bytes (w : word) : List Byte :=
  [toByte w, toByte (w / 2 ^ 8), toByte (w / 2 ^ 16), toByte (w / 2 ^ 24)]

/-- The union member `uint8_t b[size]` of `md5_t` on a little-endian machine
(the class statically asserts little-endian byte order). -/
def md5_t.b (r : md5_t) : List Byte :=
  word_bytes r.A ++ word_bytes r.B ++ word_bytes r.C ++ word_bytes r.D

def words_per_block : Nat := 16
def block_size : Nat := words_per_block * 4
def rounds_per_block : Nat := 4
def steps_per_round : Nat := words_per_block
def steps_per_block : Nat := steps_per_round * rounds_per_block

/-- The table `md5::S` of per-step rotation amounts. -/
def S : List word :=
  [7, 12, 17, 22, 7, 12, 17, 22, 7, 12, 17, 22, 7, 12, 17, 22,
   5, 9,  14, 20, 5, 9,  14, 20, 5, 9,  14, 20, 5, 9,  14, 20,
   4, 11, 16, 23, 4, 11, 16, 23, 4, 11, 16, 23, 4, 11, 16, 23,
   6, 10, 15, 21, 6, 10, 15, 21, 6, 10, 15, 21, 6, 10, 15, 21]

/-- The table `md5::K` of per-step additive constants. -/
def K : List word :=
  [0xd76aa478, 0xe8c7b756, 0x242070db, 0xc1bdceee, 0xf57c0faf, 0x4787c62a,
   0xa8304613, 0xfd469501, 0x698098d8, 0x8b44f7af, 0xffff5bb1, 0x895cd7be,
   0x6b901122, 0xfd987193, 0xa679438e, 0x49b40821, 0xf61e2562, 0xc040b340,
   0x265e5a51, 0xe9b6c7aa, 0xd62f105d, 0x02441453, 0xd8a1e681, 0xe7d3fbc8,
   0x21e1cde6, 0xc33707d6, 0xf4d50d87, 0x455a14ed, 0xa9e3e905, 0xfcefa3f8,
   0x676f02d9, 0x8d2a4c8a, 0xfffa3942, 0x8771f681, 0x6d9d6122, 0xfde5380c,
   0xa4beea44, 0x4bdecfa9, 0xf6bb4b60, 0xbebfbc70, 0x289b7ec6, 0xeaa127fa,
   0xd4ef3085, 0x04881d05, 0xd9d4d039, 0xe6db99e5, 0x1fa27cf8, 0xc4ac5665,
   0xf4292244, 0x432aff97, 0xab9423a7, 0xfc93a039, 0x655b59c3, 0x8f0ccc92,
   0xffeff47d, 0x85845dd1, 0x6fa87e4f, 0xfe2ce6e0, 0xa3014314, 0x4e0811a1,
   0xf7537e82, 0xbd3af235, 0x2ad7d2bb, 0xeb86d391]

/-- Bitwise complement `~x` of a `uint32_t`. -/
def not32 (x : word) : word := 0xffffffff - x % 2 ^ 32

def F (x y z : word) : word := (x &&& y) ||| (not32 x &&& z)
def G (x y z : word) : word := (x &&& z) ||| (y &&& not32 z)
def H (x y z : word) : word := x ^^^ y ^^^ z
def I (x y z : word) : word := y ^^^ (x ||| not32 z)

/-- `(x << n) | (x >> (32 - n))` on `uint32_t`. -/
def rotate_left (x n : word) : word :=
  ((x <<< n) % 2 ^ 32) ||| (x >>> (32 - n))

/-- The loop `while (msg.size() % 64 != 56) msg.push_back(0)`; the first
argument bounds the number of iterations (the loop makes at most 63). -/
def pad_zeros : Nat → List Byte → List Byte
  | 0, msg => msg
  | fuel + 1, msg =>
    if msg.length % 64 ≠ 56 then pad_zeros fuel (msg ++ [0]) else msg

/-- The loop `for (n = 0; n < 64; n += 8) msg.push_back((original_bits >> n) & 0xff)`. -/
def push_bits (original_bits : Nat) (msg : List Byte) : List Byte :=
  (List.range 8).foldl
    (fun m k => m ++ [toByte ((original_bits >>> (8 * k)) &&& 0xff)]) msg

/-- The padding part of `calculate`: the message after the three appends. -/
def padding (msg : List Byte) : List Byte :=
  let original_bits := (msg.length * 8) % 2 ^ 64
  let msg := msg ++ [0x80]
  let msg := pad_zeros 64 msg
  push_bits original_bits msg

/-- The value of `blk.w[j]` for the block that starts at `blk_pos`: the
little-endian 32-bit word at bytes `blk_pos + 4 j .. blk_pos + 4 j + 3`. -/
def blk_w (msg : List Byte) (blk_pos j : Nat) : word :=
  (msg.getD (blk_pos + 4 * j) 0).val
    + (msg.getD (blk_pos + 4 * j + 1) 0).val * 2 ^ 8
    + (msg.getD (blk_pos + 4 * j + 2) 0).val * 2 ^ 16
    + (msg.getD (blk_pos + 4 * j + 3) 0).val * 2 ^ 24

/-- The variables of the step loop that live across its iterations: `buffer`,
and `E` and `j`, which are declared before the loop and assigned in every
iteration by the `switch` (the round is at most 3). -/
structure step_state where
  buffer : md5_t
  E : word
  j : word

/-- One iteration, for step number `i`, of the loop over the steps of a
block. -/
def step (msg : List Byte) (blk_pos : Nat) (st : step_state) (i : Nat) : step_state :=
  let buffer := st.buffer
  let round := i / steps_per_round
  let Ej : word × word :=
    match round with
    | 0 => (F buffer.B buffer.C buffer.D, i)
    | 1 => (G buffer.B buffer.C buffer.D, (5 * i + 1) % 16)
    | 2 => (H buffer.B buffer.C buffer.D, (3 * i + 5) % 16)
    | 3 => (I buffer.B buffer.C buffer.D, (7 * i) % 16)
    | _ => (st.E, st.j)
  let j := Ej.2
  let E := (Ej.1 + (buffer.A + K.getD i 0 + blk_w msg blk_pos j)) % 2 ^ 32
  { buffer :=
      { A := buffer.D
        D := buffer.C
        C := buffer.B
        B := (buffer.B + rotate_left E (S.getD i 0)) % 2 ^ 32 }
    E := E
    j := j }

/-- The body of the loop over blocks: the 64 steps on a copy of `result`,
then the four additions into `result`. `E` and `j` are not initialised in the
source; they start at 0 here and are assigned before their first use. -/
def block_body (msg : List Byte) (blk_pos : Nat) (result : md5_t) : md5_t :=
  let st := (List.range steps_per_block).foldl (step msg blk_pos) ⟨result, 0, 0⟩
  let buffer := st.buffer
  { A := (result.A + buffer.A) % 2 ^ 32
    B := (result.B + buffer.B) % 2 ^ 32
    C := (result.C + buffer.C) % 2 ^ 32
    D := (result.D + buffer.D) % 2 ^ 32 }

/-- The loop `for (blk_pos = 0; blk_pos < msg.size(); blk_pos += 64)`; the
first argument bounds the number of iterations (`calculate` passes the size
of the message, and the loop makes `size / 64` iterations). -/
def blocks_loop (msg : List Byte) : Nat → Nat → md5_t → md5_t
  | 0, _, result => result
  | fuel + 1, blk_pos, result =>
    if blk_pos < msg.length then
      blocks_loop msg fuel (blk_pos + 64) (block_body msg blk_pos result)
    else result

/-- The function `md5::calculate`. -/
def calculate (msg : List Byte) : md5_t :=
  let msg := padding msg
  let result : md5_t := ⟨0x67452301, 0xefcdab89, 0x98badcfe, 0x10325476⟩
  blocks_loop msg msg.length 0 result

end md5


/-! ## The digest as the specification describes it

The padded message, its 64-byte blocks, the four rounds of sixteen steps with
the message-word index of each round, the register rotation of a step, and
the little-endian output. The mixing functions, the per-step constants and
the rotation amounts are those of the algorithm (the tables `md5.K` and
`md5.S`); the specification does not list them. -/

namespace md5_spec
open md5

/-- Number of `0x00` bytes appended after the `0x80` byte to a message of
`n` bytes: the least `k` with `(n + 1 + k) % 64 = 56`. -/
def zero_count (n : Nat) : Nat := (119 - n % 64) % 64

/-- The padded message: the message, one `0x80` byte, zero bytes up to a
length congruent to 56 modulo 64, and the bit length of the message as a
64-bit little-endian integer. -/
def pad (m : List Byte) : List Byte :=
  m ++ [0x80] ++ List.replicate (zero_count m.length) 0 ++ le_bytes 8 (8 * m.length)

/-- The consecutive 64-byte blocks of a padded message. -/
def blocks (p : List Byte) : List (List Byte) :=
  (List.range (p.length / 64)).map fun b => (p.drop (64 * b)).take 64

/-- The sixteen little-endian 32-bit words of a block. -/
def words (blk : List Byte) : List word :=
  (List.range 16).map fun j => le_value ((blk.drop (4 * j)).take 4)

/-- Addition of 32-bit words. -/
def add32 (a b : word) : word := (a + b) % 2 ^ 32

/-- The mixing function of round `r` (rounds are numbered from 0). -/
def round_fn : Nat → word → word → word → word
  | 0 => F
  | 1 => G
  | 2 => H
  | _ => I

/-- The message word used by step `s` of round `r`. -/
def word_index : Nat → Nat → Nat
  | 0, s => s
  | 1, s => (5 * s + 1) % 16
  | 2, s => (3 * s + 5) % 16
  | _, s => (7 * s) % 16

/-- Step `s` of round `r` on the working registers `v`: the temporary value
is rotated and added to `B`, and the registers rotate. -/
def step (w : List word) (r : Nat) (v : md5_t) (s : Nat) : md5_t :=
  let temp := add32 (add32 (add32 (round_fn r v.B v.C v.D) v.A) (K.getD (16 * r + s) 0))
    (w.getD (word_index r s) 0)
  { A := v.D
    B := add32 v.B (rotate_left temp (S.getD (16 * r + s) 0))
    C := v.B
    D := v.C }

/-- The sixteen steps of round `r`. -/
def round (w : List word) (v : md5_t) (r : Nat) : md5_t :=
  (List.range 16).foldl (step w r) v

/-- Compression of one block into the accumulators: four rounds on a copy,
then the working registers are added back. -/
def compress (acc : md5_t) (blk : List Byte) : md5_t :=
  let v := (List.range 4).foldl (round (words blk)) acc
  { A := add32 acc.A v.A
    B := add32 acc.B v.B
    C := add32 acc.C v.C
    D := add32 acc.D v.D }

/-- The initial accumulators. -/
def init : md5_t := ⟨0x67452301, 0xefcdab89, 0x98badcfe, 0x10325476⟩

/-- The digest of a message: the accumulators after all blocks, each in
little-endian byte order. -/
def digest (m : List Byte) : List Byte :=
  let r := (blocks (pad m)).foldl compress init
  le_bytes 4 r.A ++ le_bytes 4 r.B ++ le_bytes 4 r.C ++ le_bytes 4 r.D

end md5_spec

/-! ## The section locator -/

/-- The failures of the pipeline: the exceptions thrown by the code, and the
accesses outside a buffer, which the code does not check for. -/
inductive error where
  /-- "platforms other than 32-bit/64-bit are currently not supported!" -/
  | unsupported_class
  /-- "section <name> not found" -/
  | section_not_found (section_name : List Byte)
  /-- ".digest_md5 section in runtime's ELF header is too small (found <n> bytes ...)" -/
  | digest_too_small (found : Nat)
  /-- `std::out_of_range` thrown by `std::string::replace` -/
  | out_of_range
  /-- "Failed to open the AppImage for updating" -/
  | open_failed
  /-- "Failed to embed MD5 digest: could not seek to section offset" -/
  | seek_failed
  /-- "Failed to embed MD5 digest: write failed" -/
  | write_failed
  /-- a read at a position outside the storage of the buffer (undefined
  behaviour in the source) -/
  | bad_access
  /-- the iteration bound of a loop of the embedding was reached -/
  | fuel_exhausted
  /-- "Failed to open the AppImage for writing" -/
  | open_for_writing_failed
  /-- "Failed to set the AppImage as executable" -/
  | chmod_failed
  /-- "run_external: execvp failed on <file>" -/
  | execvp_failed
  /-- "run_external: waitpid failed on <file>" -/
  | waitpid_failed
  /-- "run_external: <file> exited with status <n>" -/
  | exited_with_status (status : Nat)
  /-- "run_external: fork failed on <file>" -/
  | fork_failed
deriving DecidableEq, Repr

deriving instance DecidableEq for Except

/-- The array behind `elf.data()`: the bytes of the string followed by the
terminating NUL that `std::string` guarantees at index `size()`. -/
def storage (elf : List Byte) : List Byte := elf ++ [0]

/-- The little-endian integer of `width` bytes stored at position `pos`, if
these bytes are all inside the storage. -/
def read_le (elf : List Byte) (pos width : Nat) : Option Nat :=
  if pos + width ≤ (storage elf).length then
    some (le_value (((storage elf).drop pos).take width))
  else none

/-- The NUL-terminated string that starts at position `pos`, without its
terminator, if `pos` is inside the storage. -/
def read_c_str (elf : List Byte) (pos : Nat) : Option (List Byte) :=
  if pos < (storage elf).length then
    some (((storage elf).drop pos).takeWhile (fun b => b ≠ 0))
  else none

/-- A computation on a constant buffer, with the positions it reads. -/
structure traced (α : Type) where
  result : Except error α
  reads : List Nat

namespace traced

def ret {α : Type} (a : α) : traced α := ⟨.ok a, []⟩

def raise {α : Type} (e : error) : traced α := ⟨.error e, []⟩

def andThen {α β : Type} (x : traced α) (f : α → traced β) : traced β :=
  match x.result with
  | .ok a => ⟨(f a).result, x.reads ++ (f a).reads⟩
  | .error e => ⟨.error e, x.reads⟩

instance : Monad traced where
  pure := ret
  bind := andThen

end traced

/-- A load of a `width`-byte little-endian integer from position `pos`. -/
def load (elf : List Byte) (pos width : Nat) : traced Nat :=
  ⟨match read_le elf pos width with
    | some v => .ok v
    | none => .error .bad_access,
   List.range' pos width⟩

/-- The reads of `strlen` and of the comparison on the C string at `pos`:
all its characters and its terminator. -/
def load_c_str (elf : List Byte) (pos : Nat) : traced (List Byte) :=
  match read_c_str elf pos with
  | some s => ⟨.ok s, List.range' pos (s.length + 1)⟩
  | none => ⟨.error .bad_access, [pos]⟩

/-- `struct section_stat`. -/
structure section_stat where
  offset : Nat
  length : Nat
deriving DecidableEq, Repr

/-- A field of a C structure: its offset in the structure and its width in
bytes. -/
structure field where
  off : Nat
  width : Nat

/-- The part of the layout of `ElfN_Ehdr` and `ElfN_Shdr` that the locator
uses. The structures are declared in the system header `<elf.h>`. -/
structure elf_layout where
  e_shoff : field
  e_shnum : field
  e_shstrndx : field
  shdr_size : Nat
  sh_name : field
  sh_offset : field
  sh_size : field

/-- Modelled from the spec: the layout of `Elf32_Ehdr` and `Elf32_Shdr`, the
"32-bit addressing" variant of the header, declared in the system header
`<elf.h>`. -/
def Elf32 : elf_layout :=
  { e_shoff := ⟨32, 4⟩, e_shnum := ⟨48, 2⟩, e_shstrndx := ⟨50, 2⟩, shdr_size := 40,
    sh_name := ⟨0, 4⟩, sh_offset := ⟨16, 4⟩, sh_size := ⟨20, 4⟩ }

/-- Modelled from the spec: the layout of `Elf64_Ehdr` and `Elf64_Shdr`, the
"64-bit addressing" variant of the header, declared in the system header
`<elf.h>`. -/
def Elf64 : elf_layout :=
  { e_shoff := ⟨40, 8⟩, e_shnum := ⟨60, 2⟩, e_shstrndx := ⟨62, 2⟩, shdr_size := 64,
    sh_name := ⟨0, 4⟩, sh_offset := ⟨24, 8⟩, sh_size := ⟨32, 8⟩ }

/-- Modelled from the spec: the offset of the address-class byte, the
constant `EI_CLASS` of `<elf.h>`. -/
def EI_CLASS : Nat := 4

/-- Modelled from the spec: the class of 32-bit addressing, the constant
`ELFCLASS32` of `<elf.h>`. -/
def ELFCLASS32 : Nat := 1

/-- Modelled from the spec: the class of 64-bit addressing, the constant
`ELFCLASS64` of `<elf.h>`. -/
def ELFCLASS64 : Nat := 2

/-- A load of the field `f` of the structure at position `base`. -/
def load_field (elf : List Byte) (base : Nat) (f : field) : traced Nat :=
  load elf (base + f.off) f.width

/-- The loop `for (int i = 0; i < elf->e_shnum; i++)` over the section
headers, from index `i` on; `shdr` and `str_tab` are the positions of the
section-header table and of the string table. The first argument bounds the
number of iterations. Leaving the loop without a match leads to the final
`throw` of the function. -/
def scan (L : elf_layout) (elf section_name : List Byte) (shdr str_tab : Nat) :
    Nat → Nat → traced section_stat
  | 0, _ => traced.raise .fuel_exhausted
  | fuel + 1, i => do
    let e_shnum ← load_field elf 0 L.e_shnum
    if i < e_shnum then do
      let sh_name ← load_field elf (shdr + i * L.shdr_size) L.sh_name
      let name ← load_c_str elf (str_tab + sh_name)
      if section_name = name then do
        let sh_offset ← load_field elf (shdr + i * L.shdr_size) L.sh_offset
        let sh_size ← load_field elf (shdr + i * L.shdr_size) L.sh_size
        pure ⟨sh_offset, sh_size⟩
      else scan L elf section_name shdr str_tab fuel (i + 1)
    else traced.raise (.section_not_found section_name)

/-- One of the two branches of the locator, for the layout `L`: the source
writes the same statements twice, once on `Elf32_Ehdr` and `Elf32_Shdr` and
once on `Elf64_Ehdr` and `Elf64_Shdr`. -/
def locate_in (L : elf_layout) (elf section_name : List Byte) : traced section_stat := do
  let e_shoff ← load_field elf 0 L.e_shoff
  let shdr := e_shoff
  let e_shstrndx ← load_field elf 0 L.e_shstrndx
  let str_tab ← load_field elf (shdr + e_shstrndx * L.shdr_size) L.sh_offset
  scan L elf section_name shdr str_tab (2 ^ 16) 0

/-- The function `appimage_get_elf_section_offset_and_length`. -/
def appimage_get_elf_section_offset_and_length (elf section_name : List Byte) :
    traced section_stat := do
  let klass ← load elf EI_CLASS 1
  if klass = ELFCLASS32 then locate_in Elf32 elf section_name
  else if klass = ELFCLASS64 then locate_in Elf64 elf section_name
  else traced.raise .unsupported_class

/-! ## The section table as the format describes it -/

/-- One entry of the section-header table: the name it resolves to, and its
stored section offset and section size. -/
structure section_entry where
  name : List Byte
  offset : Nat
  size : Nat
deriving DecidableEq, Repr

/-- Entry `i` of the section-header table at position `shdr`, its name
resolved in the string table at position `str_tab`, if the fields and the
start of the name are inside the storage. -/
def read_entry (L : elf_layout) (elf : List Byte) (shdr str_tab i : Nat) :
    Option section_entry :=
  match read_le elf (shdr + i * L.shdr_size + L.sh_name.off) L.sh_name.width with
  | none => none
  | some sh_name =>
    match read_c_str elf (str_tab + sh_name),
      read_le elf (shdr + i * L.shdr_size + L.sh_offset.off) L.sh_offset.width,
      read_le elf (shdr + i * L.shdr_size + L.sh_size.off) L.sh_size.width with
    | some name, some sh_offset, some sh_size => some ⟨name, sh_offset, sh_size⟩
    | _, _, _ => none

/-- The `n` entries of the section-header table from index `i` on. -/
def read_entries (L : elf_layout) (elf : List Byte) (shdr str_tab : Nat) :
    Nat → Nat → Option (List section_entry)
  | 0, _ => some []
  | n + 1, i =>
    match read_entry L elf shdr str_tab i, read_entries L elf shdr str_tab n (i + 1) with
    | some e, some es => some (e :: es)
    | _, _ => none

/-- The layout selected by the address-class byte, if it is one of the two
supported classes. -/
def layout_of (elf : List Byte) : Option elf_layout :=
  match read_le elf EI_CLASS 1 with
  | some 1 => some Elf32
  | some 2 => some Elf64
  | _ => none

/-- The section table of a buffer: defined when the address class is
supported and the header fields, the entry of the string table, the
`e_shnum` entries of the section-header table and the names they refer to
are inside the storage of the buffer. -/
def section_table (elf : List Byte) : Option (List section_entry) :=
  match layout_of elf with
  | none => none
  | some L =>
    match read_le elf L.e_shoff.off L.e_shoff.width,
      read_le elf L.e_shnum.off L.e_shnum.width,
      read_le elf L.e_shstrndx.off L.e_shstrndx.width with
    | some e_shoff, some e_shnum, some e_shstrndx =>
      match read_le elf (e_shoff + e_shstrndx * L.shdr_size + L.sh_offset.off)
          L.sh_offset.width with
      | some str_tab => read_entries L elf e_shoff str_tab e_shnum 0
      | none => none
    | _, _, _ => none

/-- The descriptor the lookup of `section_name` is to return on a section
table: offset and size of the first entry with exactly that name. -/
def lookup (tbl : List section_entry) (section_name : List Byte) : Option section_stat :=
  match tbl.find? (fun e => decide (e.name = section_name)) with
  | some e => some ⟨e.offset, e.size⟩
  | none => none

/-! ## Part 3 of `main`: embedding the digest -/

/-- The string `".digest_md5"`. -/
def digest_md5_name : List Byte :=
  [0x2e, 0x64, 0x69, 0x67, 0x65, 0x73, 0x74, 0x5f, 0x6d, 0x64, 0x35]

/-- The string `".sha256_sig"`. -/
def sha256_sig_name : List Byte :=
  [0x2e, 0x73, 0x68, 0x61, 0x32, 0x35, 0x36, 0x5f, 0x73, 0x69, 0x67]

/-- The string `".sig_key"`. -/
def sig_key_name : List Byte :=
  [0x2e, 0x73, 0x69, 0x67, 0x5f, 0x6b, 0x65, 0x79]

/-- The call `s.replace(pos, len, n, c)` of `std::string`: it throws when
`pos > size()`, clamps `len` to the end of the string, and puts `n` copies of
`c` in the place of the replaced characters. (A result longer than
`max_size()` is not modelled.) -/
def string_replace (s : List Byte) (pos len n : Nat) (c : Byte) : Except error (List Byte) :=
  if pos > s.length then .error .out_of_range
  else .ok (s.take pos ++ List.replicate n c ++ s.drop (pos + min len (s.length - pos)))

/-- The three calls `elf.replace(offset, length, length, 0)`. -/
def zero_regions (elf : List Byte) (section_digest section_sign section_key : section_stat) :
    Except error (List Byte) := do
  let elf ← string_replace elf section_digest.offset section_digest.length
    section_digest.length 0
  let elf ← string_replace elf section_sign.offset section_sign.length
    section_sign.length 0
  string_replace elf section_key.offset section_key.length section_key.length 0

/-- Part 3 of `main` from the three lookups to the call of `md5::calculate`,
on the content `elf` read from the destination: the descriptor of the digest
section and the digest. -/
def compute_digest (elf : List Byte) : Except error (section_stat × md5.md5_t) := do
  let section_digest ←
    (appimage_get_elf_section_offset_and_length elf digest_md5_name).result
  let section_sign ←
    (appimage_get_elf_section_offset_and_length elf sha256_sig_name).result
  let section_key ←
    (appimage_get_elf_section_offset_and_length elf sig_key_name).result
  if section_digest.length < md5.size then
    throw (.digest_too_small section_digest.length)
  let elf ← zero_regions elf section_digest section_sign section_key
  pure (section_digest, md5.calculate elf)

/-- What the C library does on the calls of part 3: whether `fopen` and
`fseek` succeed, and how many bytes the `fwrite` of the digest transfers. -/
structure io_outcome where
  fopen_ok : Bool
  fseek_ok : Bool
  fwrite_count : Nat

/-- An operation on the destination file. -/
inductive file_op where
  | fopen
  | fseek (offset : Nat)
  | fwrite (bytes : List Byte)
deriving DecidableEq, Repr

/-- Content of a file after writing `bytes` at position `offset` (a gap
after the end of the file is filled with zero bytes). -/
def write_at (file : List Byte) (offset : Nat) (bytes : List Byte) : List Byte :=
  file.take offset ++ List.replicate (offset - file.length) 0 ++ bytes
    ++ file.drop (offset + bytes.length)

/-- The end of a run of part 3. -/
structure stage_result where
  /-- normal completion, or the exception that ended the run -/
  result : Except error Unit
  /-- the operations performed on the destination file after reading it -/
  ops : List file_op
  /-- the content of the destination file afterwards -/
  file : List Byte

/-- Part 3 of `main` on a destination file with content `file`. -/
def embed_digest (io : io_outcome) (file : List Byte) : stage_result :=
  match compute_digest file with
  | .error e => ⟨.error e, [], file⟩
  | .ok (section_digest, digest) =>
    if !io.fopen_ok then
      ⟨.error .open_failed, [.fopen], file⟩
    else if !io.fseek_ok then
      ⟨.error .seek_failed, [.fopen, .fseek section_digest.offset], file⟩
    else
      let written := digest.b.take io.fwrite_count
      ⟨if io.fwrite_count < md5.size then .error .write_failed else .ok (),
       [.fopen, .fseek section_digest.offset, .fwrite written],
       write_at file section_digest.offset written⟩

/-! ## Notions used in the statements -/

/-- A computation on `elf` with no read outside the storage of `elf`, unless
it ends in a bad access. -/
def reads_inside {α : Type} (elf : List Byte) (t : traced α) : Prop :=
  t.result ≠ .error .bad_access → ∀ p ∈ t.reads, p < (storage elf).length

/-- The storages of `elf` and `elf'` hold the same byte at every position of
`ps`. -/
def agree_on (elf elf' : List Byte) (ps : List Nat) : Prop :=
  ∀ p ∈ ps, (storage elf)[p]? = (storage elf')[p]?

/-- The computation `t'` on `elf'` is the computation `t` on `elf` as soon as
the two buffers agree on what `t` reads. -/
def frame {α : Type} (elf elf' : List Byte) (t t' : traced α) : Prop :=
  agree_on elf elf' t.reads → t' = t

/-- Position `p` lies in the region described by `d`. -/
def in_region (d : section_stat) (p : Nat) : Prop :=
  d.offset ≤ p ∧ p < d.offset + d.length

instance in_region_decidable (d : section_stat) (p : Nat) : Decidable (in_region d p) :=
  inferInstanceAs (Decidable (d.offset ≤ p ∧ p < d.offset + d.length))

/-- The positions that the three lookups of part 3 read in `elf`: the class
byte, the header fields, the section headers scanned and the names compared. -/
def parsed_positions (elf : List Byte) : List Nat :=
  (appimage_get_elf_section_offset_and_length elf digest_md5_name).reads
    ++ (appimage_get_elf_section_offset_and_length elf sha256_sig_name).reads
    ++ (appimage_get_elf_section_offset_and_length elf sig_key_name).reads

/-! ## The digest engine -/

/-- The message `"abc"`. -/
def msg_abc : List Byte := [0x61, 0x62, 0x63]

/-- The 80-byte message made of `"1234567890"` eight times. -/
def msg_digits : List Byte :=
  [0x31, 0x32, 0x33, 0x34, 0x35, 0x36, 0x37, 0x38, 0x39, 0x30, 0x31, 0x32, 0x33, 0x34, 0x35,
  0x36, 0x37, 0x38, 0x39, 0x30, 0x31, 0x32, 0x33, 0x34, 0x35, 0x36, 0x37, 0x38, 0x39, 0x30,
  0x31, 0x32, 0x33, 0x34, 0x35, 0x36, 0x37, 0x38, 0x39, 0x30, 0x31, 0x32, 0x33, 0x34, 0x35,
  0x36, 0x37, 0x38, 0x39, 0x30, 0x31, 0x32, 0x33, 0x34, 0x35, 0x36, 0x37, 0x38, 0x39, 0x30,
  0x31, 0x32, 0x33, 0x34, 0x35, 0x36, 0x37, 0x38, 0x39, 0x30, 0x31, 0x32, 0x33, 0x34, 0x35,
  0x36, 0x37, 0x38, 0x39, 0x30]

/-! ## Sample buffers

Small 32-bit ELF images: header (52 bytes), section-header table, string
table. -/

/-- An image with the sections `.digest_md5` (offset 256, size 16),
`.sha256_sig` (offset 272, size 8), `.sig_key` (offset 280, size 4) and
`.shstrtab`, 300 bytes long, whose three regions hold leftover non-zero
bytes. -/
def sample_elf : List Byte :=
  [0x7f, 0x45, 0x4c, 0x46, 0x01, 0x01, 0x01, 0x00, 0x00, 0x00, 0x00, 0x00, 0x00, 0x00, 0x00,
  0x00, 0x03, 0x00, 0xf3, 0x00, 0x01, 0x00, 0x00, 0x00, 0x00, 0x00, 0x00, 0x00, 0x00, 0x00,
  0x00, 0x00, 0x34, 0x00, 0x00, 0x00, 0x00, 0x00, 0x00, 0x00, 0x34, 0x00, 0x00, 0x00, 0x00,
  0x00, 0x28, 0x00, 0x04, 0x00, 0x03, 0x00, 0x01, 0x00, 0x00, 0x00, 0x01, 0x00, 0x00, 0x00,
  0x00, 0x00, 0x00, 0x00, 0x00, 0x00, 0x00, 0x00, 0x00, 0x01, 0x00, 0x00, 0x10, 0x00, 0x00,
  0x00, 0x00, 0x00, 0x00, 0x00, 0x00, 0x00, 0x00, 0x00, 0x01, 0x00, 0x00, 0x00, 0x00, 0x00,
  0x00, 0x00, 0x0d, 0x00, 0x00, 0x00, 0x01, 0x00, 0x00, 0x00, 0x00, 0x00, 0x00, 0x00, 0x00,
  0x00, 0x00, 0x00, 0x10, 0x01, 0x00, 0x00, 0x08, 0x00, 0x00, 0x00, 0x00, 0x00, 0x00, 0x00,
  0x00, 0x00, 0x00, 0x00, 0x01, 0x00, 0x00, 0x00, 0x00, 0x00, 0x00, 0x00, 0x19, 0x00, 0x00,
  0x00, 0x01, 0x00, 0x00, 0x00, 0x00, 0x00, 0x00, 0x00, 0x00, 0x00, 0x00, 0x00, 0x18, 0x01,
  0x00, 0x00, 0x04, 0x00, 0x00, 0x00, 0x00, 0x00, 0x00, 0x00, 0x00, 0x00, 0x00, 0x00, 0x01,
  0x00, 0x00, 0x00, 0x00, 0x00, 0x00, 0x00, 0x22, 0x00, 0x00, 0x00, 0x03, 0x00, 0x00, 0x00,
  0x00, 0x00, 0x00, 0x00, 0x00, 0x00, 0x00, 0x00, 0xd4, 0x00, 0x00, 0x00, 0x2c, 0x00, 0x00,
  0x00, 0x00, 0x00, 0x00, 0x00, 0x00, 0x00, 0x00, 0x00, 0x01, 0x00, 0x00, 0x00, 0x00, 0x00,
  0x00, 0x00, 0x00, 0x2e, 0x64, 0x69, 0x67, 0x65, 0x73, 0x74, 0x5f, 0x6d, 0x64, 0x35, 0x00,
  0x2e, 0x73, 0x68, 0x61, 0x32, 0x35, 0x36, 0x5f, 0x73, 0x69, 0x67, 0x00, 0x2e, 0x73, 0x69,
  0x67, 0x5f, 0x6b, 0x65, 0x79, 0x00, 0x2e, 0x73, 0x68, 0x73, 0x74, 0x72, 0x74, 0x61, 0x62,
  0x00, 0xf2, 0xf9, 0xa1, 0xa8, 0xaf, 0xb6, 0xbd, 0xc4, 0xcb, 0xd2, 0xd9, 0xe0, 0xe7, 0xee,
  0xf5, 0xfc, 0xa5, 0xac, 0xb3, 0xba, 0xc1, 0xc8, 0xcf, 0xd6, 0xde, 0xe5, 0xec, 0xf3, 0x00,
  0x00, 0x00, 0x00, 0x68, 0x73, 0x71, 0x73, 0x07, 0x00, 0x00, 0x00, 0x01, 0x02, 0x03, 0x04]

/-- The image `sample_elf` with zero bytes in the three regions. -/
def sample_elf_clean : List Byte :=
  [0x7f, 0x45, 0x4c, 0x46, 0x01, 0x01, 0x01, 0x00, 0x00, 0x00, 0x00, 0x00, 0x00, 0x00, 0x00,
  0x00, 0x03, 0x00, 0xf3, 0x00, 0x01, 0x00, 0x00, 0x00, 0x00, 0x00, 0x00, 0x00, 0x00, 0x00,
  0x00, 0x00, 0x34, 0x00, 0x00, 0x00, 0x00, 0x00, 0x00, 0x00, 0x34, 0x00, 0x00, 0x00, 0x00,
  0x00, 0x28, 0x00, 0x04, 0x00, 0x03, 0x00, 0x01, 0x00, 0x00, 0x00, 0x01, 0x00, 0x00, 0x00,
  0x00, 0x00, 0x00, 0x00, 0x00, 0x00, 0x00, 0x00, 0x00, 0x01, 0x00, 0x00, 0x10, 0x00, 0x00,
  0x00, 0x00, 0x00, 0x00, 0x00, 0x00, 0x00, 0x00, 0x00, 0x01, 0x00, 0x00, 0x00, 0x00, 0x00,
  0x00, 0x00, 0x0d, 0x00, 0x00, 0x00, 0x01, 0x00, 0x00, 0x00, 0x00, 0x00, 0x00, 0x00, 0x00,
  0x00, 0x00, 0x00, 0x10, 0x01, 0x00, 0x00, 0x08, 0x00, 0x00, 0x00, 0x00, 0x00, 0x00, 0x00,
  0x00, 0x00, 0x00, 0x00, 0x01, 0x00, 0x00, 0x00, 0x00, 0x00, 0x00, 0x00, 0x19, 0x00, 0x00,
  0x00, 0x01, 0x00, 0x00, 0x00, 0x00, 0x00, 0x00, 0x00, 0x00, 0x00, 0x00, 0x00, 0x18, 0x01,
  0x00, 0x00, 0x04, 0x00, 0x00, 0x00, 0x00, 0x00, 0x00, 0x00, 0x00, 0x00, 0x00, 0x00, 0x01,
  0x00, 0x00, 0x00, 0x00, 0x00, 0x00, 0x00, 0x22, 0x00, 0x00, 0x00, 0x03, 0x00, 0x00, 0x00,
  0x00, 0x00, 0x00, 0x00, 0x00, 0x00, 0x00, 0x00, 0xd4, 0x00, 0x00, 0x00, 0x2c, 0x00, 0x00,
  0x00, 0x00, 0x00, 0x00, 0x00, 0x00, 0x00, 0x00, 0x00, 0x01, 0x00, 0x00, 0x00, 0x00, 0x00,
  0x00, 0x00, 0x00, 0x2e, 0x64, 0x69, 0x67, 0x65, 0x73, 0x74, 0x5f, 0x6d, 0x64, 0x35, 0x00,
  0x2e, 0x73, 0x68, 0x61, 0x32, 0x35, 0x36, 0x5f, 0x73, 0x69, 0x67, 0x00, 0x2e, 0x73, 0x69,
  0x67, 0x5f, 0x6b, 0x65, 0x79, 0x00, 0x2e, 0x73, 0x68, 0x73, 0x74, 0x72, 0x74, 0x61, 0x62,
  0x00, 0x00, 0x00, 0x00, 0x00, 0x00, 0x00, 0x00, 0x00, 0x00, 0x00, 0x00, 0x00, 0x00, 0x00,
  0x00, 0x00, 0x00, 0x00, 0x00, 0x00, 0x00, 0x00, 0x00, 0x00, 0x00, 0x00, 0x00, 0x00, 0x00,
  0x00, 0x00, 0x00, 0x68, 0x73, 0x71, 0x73, 0x07, 0x00, 0x00, 0x00, 0x01, 0x02, 0x03, 0x04]

/-- The image `sample_elf` with size 40 stored for `.sig_key`: the region
`[280, 320)` ends after the end of the 300 bytes. -/
def elf_key_past_end : List Byte :=
  [0x7f, 0x45, 0x4c, 0x46, 0x01, 0x01, 0x01, 0x00, 0x00, 0x00, 0x00, 0x00, 0x00, 0x00, 0x00,
  0x00, 0x03, 0x00, 0xf3, 0x00, 0x01, 0x00, 0x00, 0x00, 0x00, 0x00, 0x00, 0x00, 0x00, 0x00,
  0x00, 0x00, 0x34, 0x00, 0x00, 0x00, 0x00, 0x00, 0x00, 0x00, 0x34, 0x00, 0x00, 0x00, 0x00,
  0x00, 0x28, 0x00, 0x04, 0x00, 0x03, 0x00, 0x01, 0x00, 0x00, 0x00, 0x01, 0x00, 0x00, 0x00,
  0x00, 0x00, 0x00, 0x00, 0x00, 0x00, 0x00, 0x00, 0x00, 0x01, 0x00, 0x00, 0x10, 0x00, 0x00,
  0x00, 0x00, 0x00, 0x00, 0x00, 0x00, 0x00, 0x00, 0x00, 0x01, 0x00, 0x00, 0x00, 0x00, 0x00,
  0x00, 0x00, 0x0d, 0x00, 0x00, 0x00, 0x01, 0x00, 0x00, 0x00, 0x00, 0x00, 0x00, 0x00, 0x00,
  0x00, 0x00, 0x00, 0x10, 0x01, 0x00, 0x00, 0x08, 0x00, 0x00, 0x00, 0x00, 0x00, 0x00, 0x00,
  0x00, 0x00, 0x00, 0x00, 0x01, 0x00, 0x00, 0x00, 0x00, 0x00, 0x00, 0x00, 0x19, 0x00, 0x00,
  0x00, 0x01, 0x00, 0x00, 0x00, 0x00, 0x00, 0x00, 0x00, 0x00, 0x00, 0x00, 0x00, 0x18, 0x01,
  0x00, 0x00, 0x28, 0x00, 0x00, 0x00, 0x00, 0x00, 0x00, 0x00, 0x00, 0x00, 0x00, 0x00, 0x01,
  0x00, 0x00, 0x00, 0x00, 0x00, 0x00, 0x00, 0x22, 0x00, 0x00, 0x00, 0x03, 0x00, 0x00, 0x00,
  0x00, 0x00, 0x00, 0x00, 0x00, 0x00, 0x00, 0x00, 0xd4, 0x00, 0x00, 0x00, 0x2c, 0x00, 0x00,
  0x00, 0x00, 0x00, 0x00, 0x00, 0x00, 0x00, 0x00, 0x00, 0x01, 0x00, 0x00, 0x00, 0x00, 0x00,
  0x00, 0x00, 0x00, 0x2e, 0x64, 0x69, 0x67, 0x65, 0x73, 0x74, 0x5f, 0x6d, 0x64, 0x35, 0x00,
  0x2e, 0x73, 0x68, 0x61, 0x32, 0x35, 0x36, 0x5f, 0x73, 0x69, 0x67, 0x00, 0x2e, 0x73, 0x69,
  0x67, 0x5f, 0x6b, 0x65, 0x79, 0x00, 0x2e, 0x73, 0x68, 0x73, 0x74, 0x72, 0x74, 0x61, 0x62,
  0x00, 0xf2, 0xf9, 0xa1, 0xa8, 0xaf, 0xb6, 0xbd, 0xc4, 0xcb, 0xd2, 0xd9, 0xe0, 0xe7, 0xee,
  0xf5, 0xfc, 0xa5, 0xac, 0xb3, 0xba, 0xc1, 0xc8, 0xcf, 0xd6, 0xde, 0xe5, 0xec, 0xf3, 0x00,
  0x00, 0x00, 0x00, 0x68, 0x73, 0x71, 0x73, 0x07, 0x00, 0x00, 0x00, 0x01, 0x02, 0x03, 0x04]

/-- The image `sample_elf` with size 15 stored for `.digest_md5`. -/
def sample_elf_short_digest : List Byte :=
  [0x7f, 0x45, 0x4c, 0x46, 0x01, 0x01, 0x01, 0x00, 0x00, 0x00, 0x00, 0x00, 0x00, 0x00, 0x00,
  0x00, 0x03, 0x00, 0xf3, 0x00, 0x01, 0x00, 0x00, 0x00, 0x00, 0x00, 0x00, 0x00, 0x00, 0x00,
  0x00, 0x00, 0x34, 0x00, 0x00, 0x00, 0x00, 0x00, 0x00, 0x00, 0x34, 0x00, 0x00, 0x00, 0x00,
  0x00, 0x28, 0x00, 0x04, 0x00, 0x03, 0x00, 0x01, 0x00, 0x00, 0x00, 0x01, 0x00, 0x00, 0x00,
  0x00, 0x00, 0x00, 0x00, 0x00, 0x00, 0x00, 0x00, 0x00, 0x01, 0x00, 0x00, 0x0f, 0x00, 0x00,
  0x00, 0x00, 0x00, 0x00, 0x00, 0x00, 0x00, 0x00, 0x00, 0x01, 0x00, 0x00, 0x00, 0x00, 0x00,
  0x00, 0x00, 0x0d, 0x00, 0x00, 0x00, 0x01, 0x00, 0x00, 0x00, 0x00, 0x00, 0x00, 0x00, 0x00,
  0x00, 0x00, 0x00, 0x10, 0x01, 0x00, 0x00, 0x08, 0x00, 0x00, 0x00, 0x00, 0x00, 0x00, 0x00,
  0x00, 0x00, 0x00, 0x00, 0x01, 0x00, 0x00, 0x00, 0x00, 0x00, 0x00, 0x00, 0x19, 0x00, 0x00,
  0x00, 0x01, 0x00, 0x00, 0x00, 0x00, 0x00, 0x00, 0x00, 0x00, 0x00, 0x00, 0x00, 0x18, 0x01,
  0x00, 0x00, 0x04, 0x00, 0x00, 0x00, 0x00, 0x00, 0x00, 0x00, 0x00, 0x00, 0x00, 0x00, 0x01,
  0x00, 0x00, 0x00, 0x00, 0x00, 0x00, 0x00, 0x22, 0x00, 0x00, 0x00, 0x03, 0x00, 0x00, 0x00,
  0x00, 0x00, 0x00, 0x00, 0x00, 0x00, 0x00, 0x00, 0xd4, 0x00, 0x00, 0x00, 0x2c, 0x00, 0x00,
  0x00, 0x00, 0x00, 0x00, 0x00, 0x00, 0x00, 0x00, 0x00, 0x01, 0x00, 0x00, 0x00, 0x00, 0x00,
  0x00, 0x00, 0x00, 0x2e, 0x64, 0x69, 0x67, 0x65, 0x73, 0x74, 0x5f, 0x6d, 0x64, 0x35, 0x00,
  0x2e, 0x73, 0x68, 0x61, 0x32, 0x35, 0x36, 0x5f, 0x73, 0x69, 0x67, 0x00, 0x2e, 0x73, 0x69,
  0x67, 0x5f, 0x6b, 0x65, 0x79, 0x00, 0x2e, 0x73, 0x68, 0x73, 0x74, 0x72, 0x74, 0x61, 0x62,
  0x00, 0xf2, 0xf9, 0xa1, 0xa8, 0xaf, 0xb6, 0xbd, 0xc4, 0xcb, 0xd2, 0xd9, 0xe0, 0xe7, 0xee,
  0xf5, 0xfc, 0xa5, 0xac, 0xb3, 0xba, 0xc1, 0xc8, 0xcf, 0xd6, 0xde, 0xe5, 0xec, 0xf3, 0x00,
  0x00, 0x00, 0x00, 0x68, 0x73, 0x71, 0x73, 0x07, 0x00, 0x00, 0x00, 0x01, 0x02, 0x03, 0x04]

/-- An image of 176 bytes with the sections `.digest_md5` (offset 160,
size 15) and `.shstrtab` only. -/
def elf_digest_only : List Byte :=
  [0x7f, 0x45, 0x4c, 0x46, 0x01, 0x01, 0x01, 0x00, 0x00, 0x00, 0x00, 0x00, 0x00, 0x00, 0x00,
  0x00, 0x03, 0x00, 0xf3, 0x00, 0x01, 0x00, 0x00, 0x00, 0x00, 0x00, 0x00, 0x00, 0x00, 0x00,
  0x00, 0x00, 0x34, 0x00, 0x00, 0x00, 0x00, 0x00, 0x00, 0x00, 0x34, 0x00, 0x00, 0x00, 0x00,
  0x00, 0x28, 0x00, 0x02, 0x00, 0x01, 0x00, 0x01, 0x00, 0x00, 0x00, 0x01, 0x00, 0x00, 0x00,
  0x00, 0x00, 0x00, 0x00, 0x00, 0x00, 0x00, 0x00, 0xa0, 0x00, 0x00, 0x00, 0x0f, 0x00, 0x00,
  0x00, 0x00, 0x00, 0x00, 0x00, 0x00, 0x00, 0x00, 0x00, 0x01, 0x00, 0x00, 0x00, 0x00, 0x00,
  0x00, 0x00, 0x0d, 0x00, 0x00, 0x00, 0x03, 0x00, 0x00, 0x00, 0x00, 0x00, 0x00, 0x00, 0x00,
  0x00, 0x00, 0x00, 0x84, 0x00, 0x00, 0x00, 0x17, 0x00, 0x00, 0x00, 0x00, 0x00, 0x00, 0x00,
  0x00, 0x00, 0x00, 0x00, 0x01, 0x00, 0x00, 0x00, 0x00, 0x00, 0x00, 0x00, 0x00, 0x2e, 0x64,
  0x69, 0x67, 0x65, 0x73, 0x74, 0x5f, 0x6d, 0x64, 0x35, 0x00, 0x2e, 0x73, 0x68, 0x73, 0x74,
  0x72, 0x74, 0x61, 0x62, 0x00, 0x00, 0x00, 0x00, 0x00, 0x00, 0x00, 0x00, 0x00, 0x00, 0x00,
  0x00, 0x00, 0x00, 0x00, 0x00, 0x00, 0x00, 0x00, 0x00, 0x00, 0x00]

/-- An image of 156 bytes whose header announces three section headers at
offset 76, where the file has room for two (`.digest_md5` and `.shstrtab`). -/
def elf_short_table : List Byte :=
  [0x7f, 0x45, 0x4c, 0x46, 0x01, 0x01, 0x01, 0x00, 0x00, 0x00, 0x00, 0x00, 0x00, 0x00, 0x00,
  0x00, 0x03, 0x00, 0xf3, 0x00, 0x01, 0x00, 0x00, 0x00, 0x00, 0x00, 0x00, 0x00, 0x00, 0x00,
  0x00, 0x00, 0x4c, 0x00, 0x00, 0x00, 0x00, 0x00, 0x00, 0x00, 0x34, 0x00, 0x00, 0x00, 0x00,
  0x00, 0x28, 0x00, 0x03, 0x00, 0x01, 0x00, 0x00, 0x2e, 0x64, 0x69, 0x67, 0x65, 0x73, 0x74,
  0x5f, 0x6d, 0x64, 0x35, 0x00, 0x2e, 0x73, 0x68, 0x73, 0x74, 0x72, 0x74, 0x61, 0x62, 0x00,
  0x00, 0x01, 0x00, 0x00, 0x00, 0x01, 0x00, 0x00, 0x00, 0x00, 0x00, 0x00, 0x00, 0x00, 0x00,
  0x00, 0x00, 0x00, 0x00, 0x00, 0x00, 0x10, 0x00, 0x00, 0x00, 0x00, 0x00, 0x00, 0x00, 0x00,
  0x00, 0x00, 0x00, 0x01, 0x00, 0x00, 0x00, 0x00, 0x00, 0x00, 0x00, 0x0d, 0x00, 0x00, 0x00,
  0x03, 0x00, 0x00, 0x00, 0x00, 0x00, 0x00, 0x00, 0x00, 0x00, 0x00, 0x00, 0x34, 0x00, 0x00,
  0x00, 0x17, 0x00, 0x00, 0x00, 0x00, 0x00, 0x00, 0x00, 0x00, 0x00, 0x00, 0x00, 0x01, 0x00,
  0x00, 0x00, 0x00, 0x00, 0x00, 0x00]

/-! ## Part 2 of `main`: embedding the runtime -/

/-- What the C library does on the calls of part 2: whether `fopen`, `fseek`
and `chmod` succeed, and how many bytes of the runtime the `fwrite`
transfers. -/
structure header_io where
  fopen_ok : Bool
  fseek_ok : Bool
  fwrite_count : Nat
  chmod_ok : Bool

/-- The end of a run of part 2. -/
structure header_result where
  /-- normal completion, or the exception that ended the run -/
  result : Except error Unit
  /-- the content of the destination file afterwards -/
  file : List Byte
  /-- whether the mode of the destination has been set to 0755 -/
  mode_set : Bool

/-- Part 2 of `main` on a destination file with content `file`. The value of
`fseek` is discarded and the value of `fwrite` is stored in the variable
`blocks`, which is not used; the file was just opened, so the write starts at
offset 0 in any case. -/
def embed_runtime (io : header_io) (runtime file : List Byte) : header_result :=
  if !io.fopen_ok then
    ⟨.error .open_for_writing_failed, file, false⟩
  else
    let file := write_at file 0 (runtime.take io.fwrite_count)
    if !io.chmod_ok then
      ⟨.error .chmod_failed, file, false⟩
    else
      ⟨.ok (), file, true⟩

/-! ## The function `run_external` -/

/-- The status that `waitpid(pid, &wstatus, 0)` stores for a terminated
child: it exited with an exit status, or it was terminated by a signal. -/
inductive wait_status where
  | exited (status : Nat)
  | signaled (signal : Nat)
deriving DecidableEq, Repr

/-- Modelled from the spec: the macro `WIFEXITED` of the system header
`<sys/wait.h>`, true when the child exited normally. -/
def WIFEXITED : wait_status → Bool
  | .exited _ => true
  | .signaled _ => false

/-- Modelled from the spec: the macro `WEXITSTATUS` of the system header
`<sys/wait.h>`, the exit status of a child that exited normally (the bits it
extracts are zero in the status of a child terminated by a signal). -/
def WEXITSTATUS : wait_status → Nat
  | .exited status => status
  | .signaled _ => 0

/-- What the operating system does on the calls of `run_external`: the value
of `fork`, whether `execvp` fails and returns (in the child), the value of
`waitpid` and the status it stores (in the parent). -/
structure process_env where
  fork_value : Int
  execvp_fails : Bool
  waitpid_value : Int
  wstatus : wait_status

/-- How a call ends in the process that makes it. -/
inductive call_end where
  /-- the call returns -/
  | returned
  /-- the call throws -/
  | thrown (e : error)
  /-- `execvp` has replaced the program of the process -/
  | replaced
deriving DecidableEq, Repr

/-- The function `run_external`. -/
def run_external (env : process_env) : call_end :=
  let pid := env.fork_value
  if pid = 0 then
    -- child
    if env.execvp_fails then .thrown .execvp_failed else .replaced
  else if pid > 0 then
    -- parent
    if env.waitpid_value = -1 then
      .thrown .waitpid_failed
    else if WIFEXITED env.wstatus && (WEXITSTATUS env.wstatus == 0) then
      .returned
    else
      .thrown (.exited_with_status (WEXITSTATUS env.wstatus))
  else
    .thrown .fork_failed

/-! ## The parts of `main` in sequence -/

/-- The end of a run of `main` from part 1 on. -/
structure main_result where
  /-- how `main` ends: it returns 0, or an exception leaves it -/
  ending : call_end
  /-- whether part 2 has been entered -/
  part2_entered : Bool
  /-- whether part 3 has been entered -/
  part3_entered : Bool
  /-- the content of the destination file afterwards -/
  file : List Byte

/-- Parts 2 and 3 of `main` in sequence, on the destination file `built`
that `mksquashfs` has left. No exception is caught in `main`. -/
def main_embed (hio : header_io) (dio : io_outcome) (runtime built : List Byte) :
    main_result :=
  let r2 := embed_runtime hio runtime built
  match r2.result with
  | .error e => ⟨.thrown e, true, false, r2.file⟩
  | .ok _ =>
    let r3 := embed_digest dio r2.file
    match r3.result with
    | .error e => ⟨.thrown e, true, true, r3.file⟩
    | .ok _ => ⟨.returned, true, true, r3.file⟩

/-- The function `main` from part 1 on, in the process that calls it:
`built` is the content that the external program has left in the destination
file. -/
def main_parts (env : process_env) (hio : header_io) (dio : io_outcome)
    (runtime built : List Byte) : main_result :=
  match run_external env with
  | .returned => main_embed hio dio runtime built
  | .thrown e => ⟨.thrown e, false, false, built⟩
  | .replaced => ⟨.replaced, false, false, built⟩

/-- The image `sample_elf` with offset 260 stored for `.sha256_sig`: the
region `[260, 268)` of the signature lies inside the first 16 bytes of the
region `[256, 272)` of the digest. -/
def elf_sig_in_digest : List Byte :=
  [0x7f, 0x45, 0x4c, 0x46, 0x01, 0x01, 0x01, 0x00, 0x00, 0x00, 0x00, 0x00, 0x00, 0x00, 0x00,
  0x00, 0x03, 0x00, 0xf3, 0x00, 0x01, 0x00, 0x00, 0x00, 0x00, 0x00, 0x00, 0x00, 0x00, 0x00,
  0x00, 0x00, 0x34, 0x00, 0x00, 0x00, 0x00, 0x00, 0x00, 0x00, 0x34, 0x00, 0x00, 0x00, 0x00,
  0x00, 0x28, 0x00, 0x04, 0x00, 0x03, 0x00, 0x01, 0x00, 0x00, 0x00, 0x01, 0x00, 0x00, 0x00,
  0x00, 0x00, 0x00, 0x00, 0x00, 0x00, 0x00, 0x00, 0x00, 0x01, 0x00, 0x00, 0x10, 0x00, 0x00,
  0x00, 0x00, 0x00, 0x00, 0x00, 0x00, 0x00, 0x00, 0x00, 0x01, 0x00, 0x00, 0x00, 0x00, 0x00,
  0x00, 0x00, 0x0d, 0x00, 0x00, 0x00, 0x01, 0x00, 0x00, 0x00, 0x00, 0x00, 0x00, 0x00, 0x00,
  0x00, 0x00, 0x00, 0x04, 0x01, 0x00, 0x00, 0x08, 0x00, 0x00, 0x00, 0x00, 0x00, 0x00, 0x00,
  0x00, 0x00, 0x00, 0x00, 0x01, 0x00, 0x00, 0x00, 0x00, 0x00, 0x00, 0x00, 0x19, 0x00, 0x00,
  0x00, 0x01, 0x00, 0x00, 0x00, 0x00, 0x00, 0x00, 0x00, 0x00, 0x00, 0x00, 0x00, 0x18, 0x01,
  0x00, 0x00, 0x04, 0x00, 0x00, 0x00, 0x00, 0x00, 0x00, 0x00, 0x00, 0x00, 0x00, 0x00, 0x01,
  0x00, 0x00, 0x00, 0x00, 0x00, 0x00, 0x00, 0x22, 0x00, 0x00, 0x00, 0x03, 0x00, 0x00, 0x00,
  0x00, 0x00, 0x00, 0x00, 0x00, 0x00, 0x00, 0x00, 0xd4, 0x00, 0x00, 0x00, 0x2c, 0x00, 0x00,
  0x00, 0x00, 0x00, 0x00, 0x00, 0x00, 0x00, 0x00, 0x00, 0x01, 0x00, 0x00, 0x00, 0x00, 0x00,
  0x00, 0x00, 0x00, 0x2e, 0x64, 0x69, 0x67, 0x65, 0x73, 0x74, 0x5f, 0x6d, 0x64, 0x35, 0x00,
  0x2e, 0x73, 0x68, 0x61, 0x32, 0x35, 0x36, 0x5f, 0x73, 0x69, 0x67, 0x00, 0x2e, 0x73, 0x69,
  0x67, 0x5f, 0x6b, 0x65, 0x79, 0x00, 0x2e, 0x73, 0x68, 0x73, 0x74, 0x72, 0x74, 0x61, 0x62,
  0x00, 0xf2, 0xf9, 0xa1, 0xa8, 0xaf, 0xb6, 0xbd, 0xc4, 0xcb, 0xd2, 0xd9, 0xe0, 0xe7, 0xee,
  0xf5, 0xfc, 0xa5, 0xac, 0xb3, 0xba, 0xc1, 0xc8, 0xcf, 0xd6, 0xde, 0xe5, 0xec, 0xf3, 0x00,
  0x00, 0x00, 0x00, 0x68, 0x73, 0x71, 0x73, 0x07, 0x00, 0x00, 0x00, 0x01, 0x02, 0x03, 0x04]

/-- A 64-bit ELF image of 556 bytes with the section table of `sample_elf`:
header (64 bytes), string table at 212, the three regions at 256, 272 and
280, and the section-header table (four headers of 64 bytes) at 300. -/
def sample_elf64 : List Byte :=
  [0x7f, 0x45, 0x4c, 0x46, 0x02, 0x01, 0x01, 0x00, 0x00, 0x00, 0x00, 0x00, 0x00, 0x00, 0x00,
  0x00, 0x03, 0x00, 0xf3, 0x00, 0x01, 0x00, 0x00, 0x00, 0x00, 0x00, 0x00, 0x00, 0x00, 0x00,
  0x00, 0x00, 0x00, 0x00, 0x00, 0x00, 0x00, 0x00, 0x00, 0x00, 0x2c, 0x01, 0x00, 0x00, 0x00,
  0x00, 0x00, 0x00, 0x00, 0x00, 0x00, 0x00, 0x40, 0x00, 0x00, 0x00, 0x00, 0x00, 0x40, 0x00,
  0x04, 0x00, 0x03, 0x00, 0x00, 0x00, 0x00, 0x00, 0x00, 0x00, 0x00, 0x00, 0x00, 0x00, 0x00,
  0x00, 0x00, 0x00, 0x00, 0x00, 0x00, 0x00, 0x00, 0x00, 0x00, 0x00, 0x00, 0x00, 0x00, 0x00,
  0x00, 0x00, 0x00, 0x00, 0x00, 0x00, 0x00, 0x00, 0x00, 0x00, 0x00, 0x00, 0x00, 0x00, 0x00,
  0x00, 0x00, 0x00, 0x00, 0x00, 0x00, 0x00, 0x00, 0x00, 0x00, 0x00, 0x00, 0x00, 0x00, 0x00,
  0x00, 0x00, 0x00, 0x00, 0x00, 0x00, 0x00, 0x00, 0x00, 0x00, 0x00, 0x00, 0x00, 0x00, 0x00,
  0x00, 0x00, 0x00, 0x00, 0x00, 0x00, 0x00, 0x00, 0x00, 0x00, 0x00, 0x00, 0x00, 0x00, 0x00,
  0x00, 0x00, 0x00, 0x00, 0x00, 0x00, 0x00, 0x00, 0x00, 0x00, 0x00, 0x00, 0x00, 0x00, 0x00,
  0x00, 0x00, 0x00, 0x00, 0x00, 0x00, 0x00, 0x00, 0x00, 0x00, 0x00, 0x00, 0x00, 0x00, 0x00,
  0x00, 0x00, 0x00, 0x00, 0x00, 0x00, 0x00, 0x00, 0x00, 0x00, 0x00, 0x00, 0x00, 0x00, 0x00,
  0x00, 0x00, 0x00, 0x00, 0x00, 0x00, 0x00, 0x00, 0x00, 0x00, 0x00, 0x00, 0x00, 0x00, 0x00,
  0x00, 0x00, 0x00, 0x2e, 0x64, 0x69, 0x67, 0x65, 0x73, 0x74, 0x5f, 0x6d, 0x64, 0x35, 0x00,
  0x2e, 0x73, 0x68, 0x61, 0x32, 0x35, 0x36, 0x5f, 0x73, 0x69, 0x67, 0x00, 0x2e, 0x73, 0x69,
  0x67, 0x5f, 0x6b, 0x65, 0x79, 0x00, 0x2e, 0x73, 0x68, 0x73, 0x74, 0x72, 0x74, 0x61, 0x62,
  0x00, 0xf2, 0xf9, 0xa1, 0xa8, 0xaf, 0xb6, 0xbd, 0xc4, 0xcb, 0xd2, 0xd9, 0xe0, 0xe7, 0xee,
  0xf5, 0xfc, 0xa5, 0xac, 0xb3, 0xba, 0xc1, 0xc8, 0xcf, 0xd6, 0xde, 0xe5, 0xec, 0xf3, 0x00,
  0x00, 0x00, 0x00, 0x68, 0x73, 0x71, 0x73, 0x07, 0x00, 0x00, 0x00, 0x01, 0x02, 0x03, 0x04,
  0x01, 0x00, 0x00, 0x00, 0x01, 0x00, 0x00, 0x00, 0x00, 0x00, 0x00, 0x00, 0x00, 0x00, 0x00,
  0x00, 0x00, 0x00, 0x00, 0x00, 0x00, 0x00, 0x00, 0x00, 0x00, 0x01, 0x00, 0x00, 0x00, 0x00,
  0x00, 0x00, 0x10, 0x00, 0x00, 0x00, 0x00, 0x00, 0x00, 0x00, 0x00, 0x00, 0x00, 0x00, 0x00,
  0x00, 0x00, 0x00, 0x01, 0x00, 0x00, 0x00, 0x00, 0x00, 0x00, 0x00, 0x00, 0x00, 0x00, 0x00,
  0x00, 0x00, 0x00, 0x00, 0x0d, 0x00, 0x00, 0x00, 0x01, 0x00, 0x00, 0x00, 0x00, 0x00, 0x00,
  0x00, 0x00, 0x00, 0x00, 0x00, 0x00, 0x00, 0x00, 0x00, 0x00, 0x00, 0x00, 0x00, 0x10, 0x01,
  0x00, 0x00, 0x00, 0x00, 0x00, 0x00, 0x08, 0x00, 0x00, 0x00, 0x00, 0x00, 0x00, 0x00, 0x00,
  0x00, 0x00, 0x00, 0x00, 0x00, 0x00, 0x00, 0x01, 0x00, 0x00, 0x00, 0x00, 0x00, 0x00, 0x00,
  0x00, 0x00, 0x00, 0x00, 0x00, 0x00, 0x00, 0x00, 0x19, 0x00, 0x00, 0x00, 0x01, 0x00, 0x00,
  0x00, 0x00, 0x00, 0x00, 0x00, 0x00, 0x00, 0x00, 0x00, 0x00, 0x00, 0x00, 0x00, 0x00, 0x00,
  0x00, 0x00, 0x18, 0x01, 0x00, 0x00, 0x00, 0x00, 0x00, 0x00, 0x04, 0x00, 0x00, 0x00, 0x00,
  0x00, 0x00, 0x00, 0x00, 0x00, 0x00, 0x00, 0x00, 0x00, 0x00, 0x00, 0x01, 0x00, 0x00, 0x00,
  0x00, 0x00, 0x00, 0x00, 0x00, 0x00, 0x00, 0x00, 0x00, 0x00, 0x00, 0x00, 0x22, 0x00, 0x00,
  0x00, 0x03, 0x00, 0x00, 0x00, 0x00, 0x00, 0x00, 0x00, 0x00, 0x00, 0x00, 0x00, 0x00, 0x00,
  0x00, 0x00, 0x00, 0x00, 0x00, 0x00, 0xd4, 0x00, 0x00, 0x00, 0x00, 0x00, 0x00, 0x00, 0x2c,
  0x00, 0x00, 0x00, 0x00, 0x00, 0x00, 0x00, 0x00, 0x00, 0x00, 0x00, 0x00, 0x00, 0x00, 0x00,
  0x01, 0x00, 0x00, 0x00, 0x00, 0x00, 0x00, 0x00, 0x00, 0x00, 0x00, 0x00, 0x00, 0x00, 0x00,
  0x00]

/-! ## The areas of a buffer that the locator parses -/

/-- An image of 300 bytes with the section table at 52 and the string table
`.shstrtab` at `[212, 256)` (size 44), in which the header of the section at
`[272, 280)` stores `sh_name = 44`: its name `.sha256_sig` is read at position
256, after the end of the string table, in the region `[256, 272)` of
`.digest_md5`. -/
def elf_name_in_digest : List Byte :=
  [0x7f, 0x45, 0x4c, 0x46, 0x01, 0x01, 0x01, 0x00, 0x00, 0x00, 0x00, 0x00, 0x00, 0x00, 0x00,
  0x00, 0x03, 0x00, 0xf3, 0x00, 0x01, 0x00, 0x00, 0x00, 0x00, 0x00, 0x00, 0x00, 0x00, 0x00,
  0x00, 0x00, 0x34, 0x00, 0x00, 0x00, 0x00, 0x00, 0x00, 0x00, 0x34, 0x00, 0x00, 0x00, 0x00,
  0x00, 0x28, 0x00, 0x04, 0x00, 0x03, 0x00, 0x01, 0x00, 0x00, 0x00, 0x01, 0x00, 0x00, 0x00,
  0x00, 0x00, 0x00, 0x00, 0x00, 0x00, 0x00, 0x00, 0x00, 0x01, 0x00, 0x00, 0x10, 0x00, 0x00,
  0x00, 0x00, 0x00, 0x00, 0x00, 0x00, 0x00, 0x00, 0x00, 0x01, 0x00, 0x00, 0x00, 0x00, 0x00,
  0x00, 0x00, 0x2c, 0x00, 0x00, 0x00, 0x01, 0x00, 0x00, 0x00, 0x00, 0x00, 0x00, 0x00, 0x00,
  0x00, 0x00, 0x00, 0x10, 0x01, 0x00, 0x00, 0x08, 0x00, 0x00, 0x00, 0x00, 0x00, 0x00, 0x00,
  0x00, 0x00, 0x00, 0x00, 0x01, 0x00, 0x00, 0x00, 0x00, 0x00, 0x00, 0x00, 0x19, 0x00, 0x00,
  0x00, 0x01, 0x00, 0x00, 0x00, 0x00, 0x00, 0x00, 0x00, 0x00, 0x00, 0x00, 0x00, 0x18, 0x01,
  0x00, 0x00, 0x04, 0x00, 0x00, 0x00, 0x00, 0x00, 0x00, 0x00, 0x00, 0x00, 0x00, 0x00, 0x01,
  0x00, 0x00, 0x00, 0x00, 0x00, 0x00, 0x00, 0x22, 0x00, 0x00, 0x00, 0x03, 0x00, 0x00, 0x00,
  0x00, 0x00, 0x00, 0x00, 0x00, 0x00, 0x00, 0x00, 0xd4, 0x00, 0x00, 0x00, 0x2c, 0x00, 0x00,
  0x00, 0x00, 0x00, 0x00, 0x00, 0x00, 0x00, 0x00, 0x00, 0x01, 0x00, 0x00, 0x00, 0x00, 0x00,
  0x00, 0x00, 0x00, 0x2e, 0x64, 0x69, 0x67, 0x65, 0x73, 0x74, 0x5f, 0x6d, 0x64, 0x35, 0x00,
  0x2e, 0x63, 0x6f, 0x6d, 0x6d, 0x65, 0x6e, 0x74, 0x00, 0x00, 0x00, 0x00, 0x2e, 0x73, 0x69,
  0x67, 0x5f, 0x6b, 0x65, 0x79, 0x00, 0x2e, 0x73, 0x68, 0x73, 0x74, 0x72, 0x74, 0x61, 0x62,
  0x00, 0x2e, 0x73, 0x68, 0x61, 0x32, 0x35, 0x36, 0x5f, 0x73, 0x69, 0x67, 0x00, 0xbc, 0xbd,
  0xbe, 0xbf, 0xa4, 0xab, 0xb2, 0xb9, 0xc0, 0xc7, 0xce, 0xd5, 0xdd, 0xe4, 0xeb, 0xf2, 0x00,
  0x00, 0x00, 0x00, 0x68, 0x73, 0x71, 0x73, 0x07, 0x00, 0x00, 0x00, 0x01, 0x02, 0x03, 0x04]

/-! # Lemmas and theorems -/

namespace md5

theorem pad_zeros_eq (fuel : Nat) : ∀ (msg : List Byte),
    (119 - (msg.length + 63) % 64) % 64 ≤ fuel →
    pad_zeros fuel msg = msg ++ List.replicate ((119 - (msg.length + 63) % 64) % 64) 0 := by
  induction fuel with
  | zero =>
    intro msg h
    have h0 : (119 - (msg.length + 63) % 64) % 64 = 0 := by omega
    simp [pad_zeros, h0]
  | succ n ih =>
    intro msg h
    unfold pad_zeros
    split
    · rename_i hne
      have h1 : (119 - ((msg ++ [(0 : Byte)]).length + 63) % 64) % 64 + 1
          = (119 - (msg.length + 63) % 64) % 64 := by
        simp only [List.length_append, List.length_singleton]; omega
      rw [ih _ (by omega), ← h1, List.replicate_succ, List.append_assoc]
      rfl
    · rename_i heq
      have h0 : (119 - (msg.length + 63) % 64) % 64 = 0 := by omega
      simp [h0]

theorem toByte_and (x k : Nat) :
    toByte ((x >>> (8 * k)) &&& 0xff) = toByte (x / 256 ^ k) := by
  have h255 : (255 : Nat) = 2 ^ 8 - 1 := by norm_num
  apply Fin.ext
  simp only [toByte]
  rw [h255, Nat.and_pow_two_sub_one_eq_mod, Nat.shiftRight_eq_div_pow, pow_mul]
  norm_num

theorem push_bits_eq (x : Nat) (msg : List Byte) :
    push_bits x msg = msg ++ le_bytes 8 x := by
  simp [push_bits, le_bytes, List.range_succ, toByte_and]

/-- The padding loop of `calculate` builds the padded message of the
specification, for a message whose bit length fits in 64 bits. -/
theorem padding_eq (m : List Byte) (h : m.length < 2 ^ 61) : padding m = md5_spec.pad m := by
  unfold padding md5_spec.pad
  simp only
  rw [push_bits_eq, pad_zeros_eq 64 _ (by omega)]
  have hk : (119 - ((m ++ [(0x80 : Byte)]).length + 63) % 64) % 64
      = md5_spec.zero_count m.length := by
    simp only [List.length_append, List.length_singleton, md5_spec.zero_count]; omega
  rw [hk, Nat.mod_eq_of_lt (by omega), Nat.mul_comm]

theorem foldl_range_mul {α : Type} (f : α → Nat → α) (b : Nat) :
    ∀ (a : Nat) (init : α), (List.range (a * b)).foldl f init
      = (List.range a).foldl
          (fun acc r => (List.range b).foldl (fun acc s => f acc (b * r + s)) acc) init := by
  intro a
  induction a with
  | zero => intro init; simp
  | succ a ih =>
    intro init
    rw [Nat.succ_mul, List.range_add, List.foldl_append, ih, List.range_succ, List.foldl_append,
      List.foldl_map]
    simp [Nat.mul_comm]

theorem foldl_buffer (msg : List Byte) (pos : Nat) (g : md5_t → Nat → md5_t) :
    ∀ (l : List Nat) (st : step_state),
      (∀ i ∈ l, ∀ st : step_state, (step msg pos st i).buffer = g st.buffer i) →
      (l.foldl (step msg pos) st).buffer = l.foldl g st.buffer := by
  intro l
  induction l with
  | nil => intro st _; rfl
  | cons i l ih =>
    intro st h
    simp only [List.foldl_cons]
    rw [ih _ (fun k hk => h k (List.mem_cons_of_mem _ hk)), h i (List.mem_cons_self _ _)]

theorem take4_drop (l : List Byte) (k : Nat) (h : k + 4 ≤ l.length) :
    (l.drop k).take 4 = [l.getD k 0, l.getD (k + 1) 0, l.getD (k + 2) 0, l.getD (k + 3) 0] := by
  rw [List.drop_eq_getElem_cons (show k < l.length by omega),
    List.drop_eq_getElem_cons (show k + 1 < l.length by omega),
    List.drop_eq_getElem_cons (show k + 1 + 1 < l.length by omega),
    List.drop_eq_getElem_cons (show k + 1 + 1 + 1 < l.length by omega)]
  rw [List.getD_eq_getElem _ _ (show k < l.length by omega),
    List.getD_eq_getElem _ _ (show k + 1 < l.length by omega),
    List.getD_eq_getElem _ _ (show k + 2 < l.length by omega),
    List.getD_eq_getElem _ _ (show k + 3 < l.length by omega)]
  rfl

theorem words_getD (msg : List Byte) (pos j : Nat) (hj : j < 16) (h : pos + 64 ≤ msg.length) :
    (md5_spec.words ((msg.drop pos).take 64)).getD j 0 = blk_w msg pos j := by
  unfold md5_spec.words
  rw [List.getD_eq_getElem _ _ (by simpa using hj)]
  simp only [List.getElem_map, List.getElem_range]
  rw [take4_drop _ _ (by simp; omega)]
  have hg : ∀ t, t < 4 → ((msg.drop pos).take 64).getD (4 * j + t) 0
      = msg.getD (pos + 4 * j + t) 0 := by
    intro t ht
    rw [List.getD_eq_getElem _ _ (by simp; omega), List.getD_eq_getElem _ _ (by omega)]
    simp [Nat.add_assoc]
  have h0 := hg 0 (by omega)
  have h1 := hg 1 (by omega)
  have h2 := hg 2 (by omega)
  have h3 := hg 3 (by omega)
  simp only [Nat.add_zero] at h0
  rw [h0, h1, h2, h3]
  simp only [le_value, blk_w]
  ring


theorem add_chain (f a k w : Nat) :
    (f + (a + k + w)) % 2 ^ 32 = (((f + a) % 2 ^ 32 + k) % 2 ^ 32 + w) % 2 ^ 32 := by
  omega

theorem step_buffer (msg : List Byte) (pos r s : Nat) (hr : r < 4) (hs : s < 16)
    (h : pos + 64 ≤ msg.length) (st : step_state) :
    (step msg pos st (16 * r + s)).buffer
      = md5_spec.step (md5_spec.words ((msg.drop pos).take 64)) r st.buffer s := by
  have hw : ∀ j, j < 16 → (md5_spec.words ((msg.drop pos).take 64)).getD j 0 = blk_w msg pos j :=
    fun j hj => words_getD msg pos j hj h
  have hdiv : (16 * r + s) / steps_per_round = r := by
    simp only [steps_per_round, words_per_block]; omega
  unfold step md5_spec.step
  simp only [hdiv]
  have hr' : r = 0 ∨ r = 1 ∨ r = 2 ∨ r = 3 := by omega
  rcases hr' with rfl | rfl | rfl | rfl
  · simp only [md5_spec.round_fn, md5_spec.word_index, md5_spec.add32, hw s hs]
    simp only [Nat.mul_zero, Nat.zero_add, add_chain]
  · have hj : (5 * (16 * 1 + s) + 1) % 16 = (5 * s + 1) % 16 := by omega
    simp only [md5_spec.round_fn, md5_spec.word_index, md5_spec.add32, hj,
      hw _ (Nat.mod_lt _ (by decide : 0 < 16))]
    simp only [add_chain]
  · have hj : (3 * (16 * 2 + s) + 5) % 16 = (3 * s + 5) % 16 := by omega
    simp only [md5_spec.round_fn, md5_spec.word_index, md5_spec.add32, hj,
      hw _ (Nat.mod_lt _ (by decide : 0 < 16))]
    simp only [add_chain]
  · have hj : (7 * (16 * 3 + s)) % 16 = (7 * s) % 16 := by omega
    simp only [md5_spec.round_fn, md5_spec.word_index, md5_spec.add32, hj,
      hw _ (Nat.mod_lt _ (by decide : 0 < 16))]
    simp only [add_chain]


theorem block_body_eq (msg : List Byte) (pos : Nat) (result : md5_t)
    (h : pos + 64 ≤ msg.length) :
    block_body msg pos result = md5_spec.compress result ((msg.drop pos).take 64) := by
  have hb : ((List.range steps_per_block).foldl (step msg pos) ⟨result, 0, 0⟩).buffer
      = (List.range 4).foldl (md5_spec.round (md5_spec.words ((msg.drop pos).take 64)))
          result := by
    rw [foldl_buffer msg pos
      (fun v i => md5_spec.step (md5_spec.words ((msg.drop pos).take 64)) (i / 16) v (i % 16))]
    · show (List.range (4 * 16)).foldl _ result = _
      rw [foldl_range_mul]
      apply List.foldl_ext
      intro v r _
      unfold md5_spec.round
      apply List.foldl_ext
      intro v' s hs
      have hs' : s < 16 := List.mem_range.mp hs
      simp only [show (16 * r + s) / 16 = r by omega, show (16 * r + s) % 16 = s by omega]
    · intro i hi st
      have hi' : i < 64 := by
        simpa [steps_per_block, steps_per_round, rounds_per_block, words_per_block] using hi
      have hstep := step_buffer msg pos (i / 16) (i % 16) (by omega) (by omega) h st
      rwa [show 16 * (i / 16) + i % 16 = i by omega] at hstep
  unfold block_body md5_spec.compress
  simp only [hb, md5_spec.add32]

theorem blocks_loop_eq (msg : List Byte) (n : Nat) (hlen : msg.length = 64 * n) :
    ∀ (k b fuel : Nat) (result : md5_t), b + k = n → k ≤ fuel →
      blocks_loop msg fuel (64 * b) result
        = ((List.range' b k).map fun c => (msg.drop (64 * c)).take 64).foldl
            md5_spec.compress result := by
  intro k
  induction k with
  | zero =>
    intro b fuel result hb _
    have : ¬ 64 * b < msg.length := by omega
    cases fuel <;> simp [blocks_loop, this]
  | succ k ih =>
    intro b fuel result hb hf
    obtain ⟨fuel, rfl⟩ : ∃ f, fuel = f + 1 := ⟨fuel - 1, by omega⟩
    have hlt : 64 * b < msg.length := by omega
    simp only [blocks_loop, hlt, if_true, List.range'_succ, List.map_cons, List.foldl_cons]
    rw [block_body_eq msg (64 * b) result (by omega)]
    have := ih (b + 1) fuel (md5_spec.compress result ((msg.drop (64 * b)).take 64))
      (by omega) (by omega)
    rw [← this, Nat.mul_add]

theorem pad_length (m : List Byte) :
    (md5_spec.pad m).length = 64 * ((md5_spec.pad m).length / 64) := by
  have hl : (md5_spec.pad m).length
      = m.length + 1 + md5_spec.zero_count m.length + 8 := by
    simp [md5_spec.pad, le_bytes]; omega
  have hz : md5_spec.zero_count m.length = (119 - m.length % 64) % 64 := rfl
  rw [hl, hz]
  omega

theorem word_bytes_eq (w : word) : word_bytes w = le_bytes 4 w := by
  simp [word_bytes, le_bytes, List.range_succ]

/-- The value computed by `calculate` is the digest of the specification,
provided the padding is the specification's padding. -/
theorem calculate_eq_of_padding (m : List Byte) (hp : padding m = md5_spec.pad m) :
    (calculate m).b = md5_spec.digest m := by
  unfold calculate md5_spec.digest
  simp only [hp]
  have h := blocks_loop_eq (md5_spec.pad m) _ (pad_length m)
    ((md5_spec.pad m).length / 64) 0 (md5_spec.pad m).length md5_spec.init (by omega)
    (Nat.div_le_self _ _)
  simp only [Nat.mul_zero] at h
  rw [show (⟨0x67452301, 0xefcdab89, 0x98badcfe, 0x10325476⟩ : md5_t) = md5_spec.init from rfl,
    h, md5_spec.blocks, List.range_eq_range']
  simp only [md5_t.b, word_bytes_eq]

end md5

/-! ## Properties of the digest engine -/

set_option maxRecDepth 100000 in
/-- C1: for every byte sequence of fewer than `2^61` bytes, the bytes of
`md5::calculate` are the digest the specification defines (padding, initial
accumulators, 64-step compression of the consecutive 64-byte blocks,
little-endian output); on `"abc"` and on the two-block message of 80 bytes
they are the known MD5 values. -/
theorem c1_calculate_is_md5 :
    (∀ m : List Byte, m.length < 2 ^ 61 → (md5.calculate m).b = md5_spec.digest m)
    ∧ (md5.calculate msg_abc).b =
        [0x90, 0x01, 0x50, 0x98, 0x3c, 0xd2, 0x4f, 0xb0, 0xd6, 0x96, 0x3f, 0x7d, 0x28, 0xe1,
        0x7f, 0x72]
    ∧ (md5.calculate msg_digits).b =
        [0x57, 0xed, 0xf4, 0xa2, 0x2b, 0xe3, 0xc9, 0x55, 0xac, 0x49, 0xda, 0x2e, 0x21, 0x07,
        0xb6, 0x7a] := by
  refine ⟨fun m h => md5.calculate_eq_of_padding m (md5.padding_eq m h), ?_, ?_⟩
  · decide
  · decide

/-- C1 at the message `"abc"`. -/
theorem c1_calculate_is_md5_witness :
    msg_abc.length < 2 ^ 61 ∧ (md5.calculate msg_abc).b = md5_spec.digest msg_abc :=
  ⟨by decide, c1_calculate_is_md5.1 msg_abc (by decide)⟩

/-- C2: `md5::calculate` on the empty byte sequence returns the sixteen
bytes `d4 1d 8c d9 8f 00 b2 04 e9 80 09 98 ec f8 42 7e`. -/
theorem c2_calculate_empty :
    (md5.calculate []).b =
      [0xd4, 0x1d, 0x8c, 0xd9, 0x8f, 0x00, 0xb2, 0x04,
       0xe9, 0x80, 0x09, 0x98, 0xec, 0xf8, 0x42, 0x7e] := by
  decide

/-! ## Properties of the section locator -/

namespace traced

theorem bind_eq {α β : Type} (x : traced α) (f : α → traced β) :
    x >>= f = andThen x f := rfl

theorem pure_eq {α : Type} (a : α) : (pure a : traced α) = ret a := rfl

theorem andThen_ok {α β : Type} {x : traced α} {a : α} (h : x.result = .ok a)
    (f : α → traced β) : andThen x f = ⟨(f a).result, x.reads ++ (f a).reads⟩ := by
  unfold andThen
  rw [h]

theorem andThen_error {α β : Type} {x : traced α} {e : error} (h : x.result = .error e)
    (f : α → traced β) : andThen x f = ⟨.error e, x.reads⟩ := by
  unfold andThen
  rw [h]

end traced

theorem load_ok {elf : List Byte} {pos width v : Nat} (h : read_le elf pos width = some v) :
    load elf pos width = ⟨.ok v, List.range' pos width⟩ := by
  unfold load
  rw [h]

theorem load_field_ok {elf : List Byte} {base v : Nat} {f : field}
    (h : read_le elf (base + f.off) f.width = some v) :
    load_field elf base f = ⟨.ok v, List.range' (base + f.off) f.width⟩ :=
  load_ok h

theorem load_c_str_ok {elf : List Byte} {pos : Nat} {s : List Byte}
    (h : read_c_str elf pos = some s) :
    load_c_str elf pos = ⟨.ok s, List.range' pos (s.length + 1)⟩ := by
  unfold load_c_str
  rw [h]

theorem read_entry_some {L : elf_layout} {elf : List Byte} {shdr str_tab i : Nat}
    {e : section_entry} (h : read_entry L elf shdr str_tab i = some e) :
    ∃ sh_name,
      read_le elf (shdr + i * L.shdr_size + L.sh_name.off) L.sh_name.width = some sh_name
      ∧ read_c_str elf (str_tab + sh_name) = some e.name
      ∧ read_le elf (shdr + i * L.shdr_size + L.sh_offset.off) L.sh_offset.width
          = some e.offset
      ∧ read_le elf (shdr + i * L.shdr_size + L.sh_size.off) L.sh_size.width = some e.size := by
  unfold read_entry at h
  split at h
  · exact absurd h (by simp)
  · rename_i sh_name h1
    split at h
    · rename_i nm off sz h2 h3 h4
      cases h
      exact ⟨sh_name, h1, h2, h3, h4⟩
    · exact absurd h (by simp)

theorem read_entries_succ {L : elf_layout} {elf : List Byte} {shdr str_tab n i : Nat}
    {tbl : List section_entry} (h : read_entries L elf shdr str_tab (n + 1) i = some tbl) :
    ∃ e es, read_entry L elf shdr str_tab i = some e
      ∧ read_entries L elf shdr str_tab n (i + 1) = some es ∧ tbl = e :: es := by
  unfold read_entries at h
  split at h
  · rename_i e es h1 h2
    cases h
    exact ⟨e, es, h1, h2, rfl⟩
  · exact absurd h (by simp)

theorem lookup_cons (e : section_entry) (es : List section_entry) (name : List Byte) :
    lookup (e :: es) name
      = if e.name = name then some ⟨e.offset, e.size⟩ else lookup es name := by
  unfold lookup
  by_cases h : e.name = name <;> simp [List.find?, h]

/-- The result of the scan loop on a readable section-header table is the
lookup in the table. -/
theorem scan_result (L : elf_layout) (elf name : List Byte) (shdr str_tab : Nat) :
    ∀ (n i fuel : Nat) (tbl : List section_entry), n < fuel →
      read_le elf L.e_shnum.off L.e_shnum.width = some (i + n) →
      read_entries L elf shdr str_tab n i = some tbl →
      (scan L elf name shdr str_tab fuel i).result
        = match lookup tbl name with
          | some d => .ok d
          | none => .error (.section_not_found name) := by
  intro n
  induction n with
  | zero =>
    intro i fuel tbl hf hnum htbl
    obtain ⟨fuel, rfl⟩ : ∃ f, fuel = f + 1 := ⟨fuel - 1, by omega⟩
    have hnum' : read_le elf (0 + L.e_shnum.off) L.e_shnum.width = some i := by
      simpa using hnum
    simp only [read_entries, Option.some.injEq] at htbl
    subst htbl
    simp only [scan, traced.bind_eq, traced.andThen_ok (congrArg traced.result (load_field_ok hnum')),
      Nat.lt_irrefl, if_false, lookup, List.find?, traced.raise]
  | succ n ih =>
    intro i fuel tbl hf hnum htbl
    obtain ⟨fuel, rfl⟩ : ∃ f, fuel = f + 1 := ⟨fuel - 1, by omega⟩
    have hnum' : read_le elf (0 + L.e_shnum.off) L.e_shnum.width = some (i + (n + 1)) := by
      simpa using hnum
    obtain ⟨e, es, he, hes, rfl⟩ := read_entries_succ htbl
    obtain ⟨sh_name, h1, h2, h3, h4⟩ := read_entry_some he
    have hlt : i < i + (n + 1) := by omega
    have hrec := ih (i + 1) fuel es (by omega) (by rw [hnum]; congr 1; omega) hes
    rw [lookup_cons]
    simp only [scan, traced.bind_eq, traced.pure_eq,
      traced.andThen_ok (congrArg traced.result (load_field_ok hnum')), hlt, if_true,
      traced.andThen_ok (congrArg traced.result (load_field_ok h1)),
      traced.andThen_ok (congrArg traced.result (load_c_str_ok h2))]
    by_cases hname : name = e.name
    · simp only [hname, if_true,
        traced.andThen_ok (congrArg traced.result (load_field_ok h3)),
        traced.andThen_ok (congrArg traced.result (load_field_ok h4)), traced.ret]
    · have hname' : ¬ e.name = name := fun h => hname h.symm
      simp only [hname, hname', if_false, hrec]

theorem read_le_width_lt (elf : List Byte) (pos width v : Nat)
    (h : read_le elf pos width = some v) : v < 256 ^ width := by
  unfold read_le at h
  split at h
  · cases h
    have hlen : (((storage elf).drop pos).take width).length ≤ width := by simp
    have hval : ∀ (l : List Byte), le_value l < 256 ^ l.length := by
      intro l
      induction l with
      | nil => simp [le_value]
      | cons b bs ih =>
        simp only [le_value, List.length_cons, pow_succ]
        have := b.isLt
        omega
    exact lt_of_lt_of_le (hval _) (Nat.pow_le_pow_right (by decide) hlen)
  · exact absurd h (by simp)

/-- The result of one branch of the locator on a readable section table. -/
theorem locate_in_result (L : elf_layout) (elf name : List Byte) (e_shoff e_shnum e_shstrndx
    str_tab : Nat) (tbl : List section_entry) (hw : L.e_shnum.width = 2)
    (h1 : read_le elf L.e_shoff.off L.e_shoff.width = some e_shoff)
    (h2 : read_le elf L.e_shnum.off L.e_shnum.width = some e_shnum)
    (h3 : read_le elf L.e_shstrndx.off L.e_shstrndx.width = some e_shstrndx)
    (h4 : read_le elf (e_shoff + e_shstrndx * L.shdr_size + L.sh_offset.off) L.sh_offset.width
      = some str_tab)
    (h5 : read_entries L elf e_shoff str_tab e_shnum 0 = some tbl) :
    (locate_in L elf name).result
      = match lookup tbl name with
        | some d => .ok d
        | none => .error (.section_not_found name) := by
  have h1' : read_le elf (0 + L.e_shoff.off) L.e_shoff.width = some e_shoff := by simpa using h1
  have h3' : read_le elf (0 + L.e_shstrndx.off) L.e_shstrndx.width = some e_shstrndx := by
    simpa using h3
  have hlt : e_shnum < 2 ^ 16 := by
    have := read_le_width_lt _ _ _ _ h2
    rw [hw] at this
    exact this
  simp only [locate_in, traced.bind_eq,
    traced.andThen_ok (congrArg traced.result (load_field_ok h1')),
    traced.andThen_ok (congrArg traced.result (load_field_ok h3')),
    traced.andThen_ok (congrArg traced.result (load_field_ok h4))]
  exact scan_result L elf name e_shoff str_tab e_shnum 0 (2 ^ 16) tbl hlt (by simpa using h2) h5

/-- On a buffer that has a section table, the locator returns the descriptor
of the first entry with the requested name, and fails with "not found" when
there is none. -/
theorem locate_result (elf name : List Byte) (tbl : List section_entry)
    (h : section_table elf = some tbl) :
    (appimage_get_elf_section_offset_and_length elf name).result
      = match lookup tbl name with
        | some d => .ok d
        | none => .error (.section_not_found name) := by
  unfold section_table at h
  split at h
  · exact absurd h (by simp)
  · rename_i L hL
    split at h
    · rename_i e_shoff e_shnum e_shstrndx h1 h2 h3
      split at h
      · rename_i str_tab h4
        unfold layout_of at hL
        split at hL
        · rename_i hk
          cases hL
          simp only [appimage_get_elf_section_offset_and_length, traced.bind_eq,
            traced.andThen_ok (congrArg traced.result (load_ok hk)), ELFCLASS32, if_true]
          exact locate_in_result Elf32 elf name _ _ _ _ tbl rfl h1 h2 h3 h4 h
        · rename_i hk
          cases hL
          simp only [appimage_get_elf_section_offset_and_length, traced.bind_eq,
            traced.andThen_ok (congrArg traced.result (load_ok hk)), ELFCLASS32, ELFCLASS64,
            if_true]
          exact locate_in_result Elf64 elf name _ _ _ _ tbl rfl h1 h2 h3 h4 h
        · exact absurd hL (by simp)
      · exact absurd h (by simp)
    · exact absurd h (by simp)

/-! ### The scan loop ends within its iteration bound -/

theorem scan_terminates (L : elf_layout) (elf name : List Byte) (shdr str_tab : Nat)
    (hw : L.e_shnum.width = 2) :
    ∀ (fuel i : Nat), 2 ^ 16 ≤ i + fuel → i < 2 ^ 16 →
      (scan L elf name shdr str_tab fuel i).result ≠ .error .fuel_exhausted := by
  intro fuel
  induction fuel with
  | zero => intro i h1 h2; omega
  | succ fuel ih =>
    intro i h1 h2
    unfold scan
    simp only [traced.bind_eq, traced.pure_eq]
    cases hn : read_le elf (0 + L.e_shnum.off) L.e_shnum.width with
    | none =>
      have hl : (load_field elf 0 L.e_shnum).result = .error .bad_access := by
        unfold load_field load
        rw [hn]
      rw [traced.andThen_error hl]
      simp
    | some e_shnum =>
      have hlt : e_shnum < 2 ^ 16 := by
        have := read_le_width_lt _ _ _ _ hn
        rw [hw] at this
        exact this
      rw [traced.andThen_ok (congrArg traced.result (load_field_ok hn))]
      simp only
      split
      · rename_i hi
        have key : ∀ e, e ≠ error.fuel_exhausted →
            ∀ {α : Type} (x : traced α),
              (x.result ≠ .error .fuel_exhausted ∨ x.result = .error e) →
              x.result ≠ .error .fuel_exhausted := by
          intro e he α x hx
          rcases hx with hx | hx
          · exact hx
          · rw [hx]; intro h; cases h; exact he rfl
        cases h1' : (load_field elf (shdr + i * L.shdr_size) L.sh_name).result with
        | error e =>
          rw [traced.andThen_error h1']
          have : e = .bad_access := by
            unfold load_field load at h1'
            cases hr : read_le elf (shdr + i * L.shdr_size + L.sh_name.off) L.sh_name.width with
            | none => rw [hr] at h1'; cases h1'; rfl
            | some v => rw [hr] at h1'; cases h1'
          subst this
          simp
        | ok sh_name =>
          rw [traced.andThen_ok h1']
          simp only
          cases h2' : (load_c_str elf (str_tab + sh_name)).result with
          | error e =>
            rw [traced.andThen_error h2']
            have : e = .bad_access := by
              unfold load_c_str at h2'
              cases hr : read_c_str elf (str_tab + sh_name) with
              | none => rw [hr] at h2'; cases h2'; rfl
              | some v => rw [hr] at h2'; cases h2'
            subst this
            simp
          | ok s =>
            rw [traced.andThen_ok h2']
            simp only
            split
            · have hload : ∀ pos w, (load elf pos w).result = .error .bad_access
                  ∨ ∃ v, (load elf pos w).result = .ok v := by
                intro pos w
                unfold load
                cases read_le elf pos w with
                | none => exact Or.inl rfl
                | some v => exact Or.inr ⟨v, rfl⟩
              rcases hload (shdr + i * L.shdr_size + L.sh_offset.off) L.sh_offset.width
                with h3 | ⟨v3, h3⟩
              · rw [load_field, traced.andThen_error h3]
                simp
              · rw [load_field, traced.andThen_ok h3]
                simp only
                rcases hload (shdr + i * L.shdr_size + L.sh_size.off) L.sh_size.width
                  with h4 | ⟨v4, h4⟩
                · rw [load_field, traced.andThen_error h4]
                  simp
                · rw [load_field, traced.andThen_ok h4]
                  simp [traced.ret]
            · exact ih (i + 1) (by omega) (by omega)
      · simp [traced.raise]

/-- The locator never stops on the iteration bound of the embedding of its
loop: `e_shnum` is a 16-bit field, so the loop makes at most `2^16 - 1`
iterations. -/
theorem locate_terminates (elf name : List Byte) :
    (appimage_get_elf_section_offset_and_length elf name).result ≠ .error .fuel_exhausted := by
  have hin : ∀ L : elf_layout, L.e_shnum.width = 2 →
      (locate_in L elf name).result ≠ .error .fuel_exhausted := by
    intro L hw
    have hload : ∀ pos w, (load elf pos w).result = .error .bad_access
        ∨ ∃ v, (load elf pos w).result = .ok v := by
      intro pos w
      unfold load
      cases read_le elf pos w with
      | none => exact Or.inl rfl
      | some v => exact Or.inr ⟨v, rfl⟩
    unfold locate_in
    simp only [traced.bind_eq, load_field]
    rcases hload (0 + L.e_shoff.off) L.e_shoff.width with h1 | ⟨v1, h1⟩
    · rw [traced.andThen_error h1]; simp
    · rw [traced.andThen_ok h1]
      simp only
      rcases hload (0 + L.e_shstrndx.off) L.e_shstrndx.width with h2 | ⟨v2, h2⟩
      · rw [traced.andThen_error h2]; simp
      · rw [traced.andThen_ok h2]
        simp only
        rcases hload (v1 + v2 * L.shdr_size + L.sh_offset.off) L.sh_offset.width
          with h3 | ⟨v3, h3⟩
        · rw [traced.andThen_error h3]; simp
        · rw [traced.andThen_ok h3]
          exact scan_terminates L elf name v1 v3 hw (2 ^ 16) 0 (by omega) (by norm_num)
  have hload : (load elf EI_CLASS 1).result = .error .bad_access
      ∨ ∃ v, (load elf EI_CLASS 1).result = .ok v := by
    unfold load
    cases read_le elf EI_CLASS 1 with
    | none => exact Or.inl rfl
    | some v => exact Or.inr ⟨v, rfl⟩
  unfold appimage_get_elf_section_offset_and_length
  simp only [traced.bind_eq]
  rcases hload with h | ⟨v, h⟩
  · rw [traced.andThen_error h]; simp
  · rw [traced.andThen_ok h]
    simp only
    split
    · exact hin Elf32 rfl
    · split
      · exact hin Elf64 rfl
      · simp [traced.raise]

/-! ### The positions read are inside the storage -/

theorem reads_inside_raise {α : Type} (elf : List Byte) (e : error) :
    reads_inside elf (traced.raise e : traced α) := by
  intro _ p hp
  simp [traced.raise] at hp

theorem reads_inside_ret {α : Type} (elf : List Byte) (a : α) :
    reads_inside elf (traced.ret a) := by
  intro _ p hp
  simp [traced.ret] at hp

theorem reads_inside_andThen {α β : Type} (elf : List Byte) (x : traced α)
    (f : α → traced β) (hx : reads_inside elf x) (hf : ∀ a, reads_inside elf (f a)) :
    reads_inside elf (traced.andThen x f) := by
  intro hres p hp
  cases hr : x.result with
  | error e =>
    rw [traced.andThen_error hr] at hres hp
    exact hx (by rw [hr]; simpa using hres) p hp
  | ok a =>
    rw [traced.andThen_ok hr] at hres hp
    simp only [List.mem_append] at hp
    rcases hp with hp | hp
    · exact hx (by rw [hr]; simp) p hp
    · exact hf a hres p hp

theorem read_le_bound {elf : List Byte} {pos width v : Nat}
    (h : read_le elf pos width = some v) : pos + width ≤ (storage elf).length := by
  unfold read_le at h
  split at h
  · assumption
  · exact absurd h (by simp)

theorem reads_inside_load (elf : List Byte) (pos width : Nat) :
    reads_inside elf (load elf pos width) := by
  intro hres p hp
  cases h : read_le elf pos width with
  | none =>
    unfold load at hres
    rw [h] at hres
    exact absurd rfl hres
  | some v =>
    rw [load_ok h] at hp
    simp only [List.mem_range'_1] at hp
    have := read_le_bound h
    omega

theorem takeWhile_terminated (l : List Byte) :
    ((l ++ [0]).takeWhile (fun b => b ≠ 0)).length ≤ l.length := by
  induction l with
  | nil => simp
  | cons a t ih =>
    simp only [List.cons_append, List.takeWhile_cons]
    split
    · simpa using ih
    · simp

theorem read_c_str_length {elf : List Byte} {pos : Nat} {s : List Byte}
    (h : read_c_str elf pos = some s) : pos + s.length < (storage elf).length := by
  unfold read_c_str at h
  split at h
  · rename_i hlt
    cases h
    unfold storage at hlt ⊢
    simp only [List.length_append, List.length_singleton] at hlt ⊢
    rw [List.drop_append_of_le_length (by omega)]
    have := takeWhile_terminated (elf.drop pos)
    simp only [List.length_drop] at this
    omega
  · exact absurd h (by simp)

theorem reads_inside_load_c_str (elf : List Byte) (pos : Nat) :
    reads_inside elf (load_c_str elf pos) := by
  intro hres p hp
  cases h : read_c_str elf pos with
  | none =>
    unfold load_c_str at hres
    rw [h] at hres
    exact absurd rfl hres
  | some s =>
    rw [load_c_str_ok h] at hp
    simp only [List.mem_range'_1] at hp
    have := read_c_str_length h
    omega

theorem reads_inside_scan (L : elf_layout) (elf name : List Byte) (shdr str_tab : Nat) :
    ∀ (fuel i : Nat), reads_inside elf (scan L elf name shdr str_tab fuel i) := by
  intro fuel
  induction fuel with
  | zero => intro i; exact reads_inside_raise elf _
  | succ fuel ih =>
    intro i
    unfold scan
    simp only [traced.bind_eq, traced.pure_eq]
    refine reads_inside_andThen elf _ _ (reads_inside_load elf _ _) (fun e_shnum => ?_)
    split
    · refine reads_inside_andThen elf _ _ (reads_inside_load elf _ _) (fun sh_name => ?_)
      refine reads_inside_andThen elf _ _ (reads_inside_load_c_str elf _) (fun s => ?_)
      split
      · refine reads_inside_andThen elf _ _ (reads_inside_load elf _ _) (fun off => ?_)
        refine reads_inside_andThen elf _ _ (reads_inside_load elf _ _) (fun sz => ?_)
        exact reads_inside_ret elf _
      · exact ih (i + 1)
    · exact reads_inside_raise elf _

theorem reads_inside_locate_in (L : elf_layout) (elf name : List Byte) :
    reads_inside elf (locate_in L elf name) := by
  unfold locate_in
  simp only [traced.bind_eq]
  refine reads_inside_andThen elf _ _ (reads_inside_load elf _ _) (fun e_shoff => ?_)
  refine reads_inside_andThen elf _ _ (reads_inside_load elf _ _) (fun e_shstrndx => ?_)
  refine reads_inside_andThen elf _ _ (reads_inside_load elf _ _) (fun str_tab => ?_)
  exact reads_inside_scan L elf name _ _ _ _

/-- Unless it ends in a bad access, the locator reads no position outside
the storage of the buffer. -/
theorem reads_inside_locate (elf name : List Byte) :
    reads_inside elf (appimage_get_elf_section_offset_and_length elf name) := by
  unfold appimage_get_elf_section_offset_and_length
  simp only [traced.bind_eq]
  refine reads_inside_andThen elf _ _ (reads_inside_load elf _ _) (fun klass => ?_)
  split
  · exact reads_inside_locate_in _ elf name
  · split
    · exact reads_inside_locate_in _ elf name
    · exact reads_inside_raise elf _

/-! ### The locator depends only on the bytes it reads -/

theorem frame_refl {α : Type} (elf elf' : List Byte) (t : traced α) :
    frame elf elf' t t := fun _ => rfl

theorem frame_andThen {α β : Type} (elf elf' : List Byte) (x x' : traced α)
    (f f' : α → traced β) (hx : frame elf elf' x x') (hf : ∀ a, frame elf elf' (f a) (f' a)) :
    frame elf elf' (traced.andThen x f) (traced.andThen x' f') := by
  intro h
  cases hr : x.result with
  | error e =>
    rw [traced.andThen_error hr] at h ⊢
    have hx' := hx h
    rw [traced.andThen_error (by rw [hx']; exact hr), hx']
  | ok a =>
    rw [traced.andThen_ok hr] at h ⊢
    have hx' := hx (fun p hp => h p (List.mem_append_left _ hp))
    have hf' := hf a (fun p hp => h p (List.mem_append_right _ hp))
    rw [traced.andThen_ok (by rw [hx']; exact hr), hx', hf']

theorem take_drop_eq_of_agree (s s' : List Byte) (pos width : Nat)
    (h : ∀ p ∈ List.range' pos width, s[p]? = s'[p]?) :
    (s.drop pos).take width = (s'.drop pos).take width := by
  apply List.ext_getElem?
  intro i
  simp only [List.getElem?_take, List.getElem?_drop]
  split
  · exact h _ (by simp only [List.mem_range'_1]; omega)
  · rfl

theorem read_le_eq_of_agree (elf elf' : List Byte) (hlen : elf.length = elf'.length)
    (pos width : Nat) (h : agree_on elf elf' (List.range' pos width)) :
    read_le elf' pos width = read_le elf pos width := by
  have hs : (storage elf').length = (storage elf).length := by simp [storage, hlen]
  unfold read_le
  rw [hs, take_drop_eq_of_agree _ _ pos width h]

theorem frame_load (elf elf' : List Byte) (hlen : elf.length = elf'.length) (pos width : Nat) :
    frame elf elf' (load elf pos width) (load elf' pos width) := by
  intro h
  unfold load at h ⊢
  rw [read_le_eq_of_agree elf elf' hlen pos width h]

theorem takeWhile_eq_of_agree (P : Byte → Bool) :
    ∀ (l l' : List Byte), (∀ i, i ≤ (l.takeWhile P).length → l[i]? = l'[i]?) →
      l'.takeWhile P = l.takeWhile P := by
  intro l
  induction l with
  | nil =>
    intro l' h
    have h0 := h 0 (by simp)
    cases l' with
    | nil => rfl
    | cons a t => simp at h0
  | cons a t ih =>
    intro l' h
    have h0 := h 0 (by simp)
    cases l' with
    | nil => simp at h0
    | cons a' t' =>
      simp only [List.getElem?_cons_zero, Option.some.injEq] at h0
      subst h0
      simp only [List.takeWhile_cons]
      cases hP : P a with
      | false => rfl
      | true =>
        simp only [if_true]
        congr 1
        apply ih
        intro i hi
        have := h (i + 1) (by simp [List.takeWhile_cons, hP]; exact hi)
        simpa using this

theorem read_c_str_eq_of_agree (elf elf' : List Byte) (hlen : elf.length = elf'.length)
    (pos : Nat) (s : List Byte) (hs : read_c_str elf pos = some s)
    (h : agree_on elf elf' (List.range' pos (s.length + 1))) :
    read_c_str elf' pos = some s := by
  have hl : (storage elf').length = (storage elf).length := by simp [storage, hlen]
  unfold read_c_str at hs ⊢
  rw [hl]
  split at hs
  · rename_i hlt
    simp only [hlt, if_true, Option.some.injEq] at hs ⊢
    rw [← hs]
    apply takeWhile_eq_of_agree
    intro i hi
    simp only [List.getElem?_drop]
    apply h
    simp only [List.mem_range'_1]
    rw [hs] at hi
    omega
  · exact absurd hs (by simp)

theorem frame_load_c_str (elf elf' : List Byte) (hlen : elf.length = elf'.length) (pos : Nat) :
    frame elf elf' (load_c_str elf pos) (load_c_str elf' pos) := by
  intro h
  cases hs : read_c_str elf pos with
  | some s =>
    rw [load_c_str_ok hs] at h ⊢
    rw [load_c_str_ok (read_c_str_eq_of_agree elf elf' hlen pos s hs h)]
  | none =>
    have hl : (storage elf').length = (storage elf).length := by simp [storage, hlen]
    have hs' : read_c_str elf' pos = none := by
      unfold read_c_str at hs ⊢
      rw [hl]
      split at hs
      · exact absurd hs (by simp)
      · rename_i hge
        simp [hge]
    unfold load_c_str
    rw [hs, hs']

theorem frame_scan (L : elf_layout) (elf elf' name : List Byte)
    (hlen : elf.length = elf'.length) (shdr str_tab : Nat) :
    ∀ (fuel i : Nat), frame elf elf' (scan L elf name shdr str_tab fuel i)
      (scan L elf' name shdr str_tab fuel i) := by
  intro fuel
  induction fuel with
  | zero => intro i; exact frame_refl elf elf' _
  | succ fuel ih =>
    intro i
    unfold scan
    simp only [traced.bind_eq, traced.pure_eq]
    refine frame_andThen elf elf' _ _ _ _ (frame_load elf elf' hlen _ _) (fun e_shnum => ?_)
    split
    · refine frame_andThen elf elf' _ _ _ _ (frame_load elf elf' hlen _ _) (fun sh_name => ?_)
      refine frame_andThen elf elf' _ _ _ _ (frame_load_c_str elf elf' hlen _) (fun s => ?_)
      split
      · refine frame_andThen elf elf' _ _ _ _ (frame_load elf elf' hlen _ _) (fun off => ?_)
        refine frame_andThen elf elf' _ _ _ _ (frame_load elf elf' hlen _ _) (fun sz => ?_)
        exact frame_refl elf elf' _
      · exact ih (i + 1)
    · exact frame_refl elf elf' _

theorem frame_locate_in (L : elf_layout) (elf elf' name : List Byte)
    (hlen : elf.length = elf'.length) :
    frame elf elf' (locate_in L elf name) (locate_in L elf' name) := by
  unfold locate_in
  simp only [traced.bind_eq]
  refine frame_andThen elf elf' _ _ _ _ (frame_load elf elf' hlen _ _) (fun e_shoff => ?_)
  refine frame_andThen elf elf' _ _ _ _ (frame_load elf elf' hlen _ _) (fun e_shstrndx => ?_)
  refine frame_andThen elf elf' _ _ _ _ (frame_load elf elf' hlen _ _) (fun str_tab => ?_)
  exact frame_scan L elf elf' name hlen _ _ _ _

/-- Two buffers of the same length that agree on every position the locator
reads in the first one give the same run of the locator: same result, same
reads. -/
theorem frame_locate (elf elf' name : List Byte) (hlen : elf.length = elf'.length) :
    frame elf elf' (appimage_get_elf_section_offset_and_length elf name)
      (appimage_get_elf_section_offset_and_length elf' name) := by
  unfold appimage_get_elf_section_offset_and_length
  simp only [traced.bind_eq]
  refine frame_andThen elf elf' _ _ _ _ (frame_load elf elf' hlen _ _) (fun klass => ?_)
  split
  · exact frame_locate_in _ elf elf' name hlen
  · split
    · exact frame_locate_in _ elf elf' name hlen
    · exact frame_refl elf elf' _

/-! ## Properties of the zeroing step -/

theorem string_replace_ok (s : List Byte) (pos len n : Nat) (c : Byte) (h : pos ≤ s.length) :
    string_replace s pos len n c
      = .ok (s.take pos ++ List.replicate n c ++ s.drop (pos + min len (s.length - pos))) := by
  unfold string_replace
  rw [if_neg (by omega)]

theorem string_replace_error (s : List Byte) (pos len n : Nat) (c : Byte)
    (h : s.length < pos) : string_replace s pos len n c = .error .out_of_range := by
  unfold string_replace
  rw [if_pos (by omega)]

theorem string_replace_length (s r : List Byte) (pos len : Nat) (c : Byte)
    (h : string_replace s pos len len c = .ok r) :
    r.length = max s.length (pos + len) := by
  unfold string_replace at h
  split at h
  · exact absurd h (by simp)
  · cases h
    simp only [List.length_append, List.length_take, List.length_replicate, List.length_drop]
    omega

theorem string_replace_getElem? (s r : List Byte) (pos len : Nat) (c : Byte)
    (h : string_replace s pos len len c = .ok r) (p : Nat) :
    r[p]? = if pos ≤ p ∧ p < pos + len then some c else s[p]? := by
  unfold string_replace at h
  split at h
  · exact absurd h (by simp)
  · rename_i hpos
    cases h
    have htake : (s.take pos).length = pos := by simp; omega
    by_cases h1 : p < pos
    · rw [if_neg (by omega), List.append_assoc, List.getElem?_append_left (by omega),
        List.getElem?_take_of_lt h1]
    · by_cases h2 : p < pos + len
      · rw [if_pos (by omega), List.getElem?_append_left (by simp; omega),
          List.getElem?_append_right (by omega), htake, List.getElem?_replicate]
        simp; omega
      · rw [if_neg (by omega), List.getElem?_append_right (by simp; omega)]
        simp only [List.length_append, htake, List.length_replicate, List.getElem?_drop]
        by_cases h3 : pos + len ≤ s.length
        · congr 1; omega
        · rw [List.getElem?_eq_none (by omega), List.getElem?_eq_none (by omega)]

/-- The bytes of the buffer after the three replacements. -/
theorem zero_regions_getElem? (elf z : List Byte) (d s k : section_stat)
    (h : zero_regions elf d s k = .ok z) (p : Nat) :
    z[p]? = if in_region d p ∨ in_region s p ∨ in_region k p then some 0 else elf[p]? := by
  unfold zero_regions at h
  cases h1 : string_replace elf d.offset d.length d.length 0 with
  | error e => rw [h1] at h; exact absurd h (by simp [bind, Except.bind])
  | ok e1 =>
    rw [h1] at h
    cases h2 : string_replace e1 s.offset s.length s.length 0 with
    | error e =>
      simp only [bind, Except.bind] at h
      rw [h2] at h
      exact absurd h (by simp)
    | ok e2 =>
      simp only [bind, Except.bind] at h
      rw [h2] at h
      simp only at h
      rw [string_replace_getElem? _ _ _ _ _ h, string_replace_getElem? _ _ _ _ _ h2,
        string_replace_getElem? _ _ _ _ _ h1]
      unfold in_region
      by_cases hd : d.offset ≤ p ∧ p < d.offset + d.length <;>
      by_cases hs : s.offset ≤ p ∧ p < s.offset + s.length <;>
      by_cases hk : k.offset ≤ p ∧ p < k.offset + k.length <;>
      simp [hd, hs, hk]

/-- The length of the buffer after the three replacements. -/
theorem zero_regions_length (elf z : List Byte) (d s k : section_stat)
    (h : zero_regions elf d s k = .ok z) :
    z.length = max (max (max elf.length (d.offset + d.length)) (s.offset + s.length))
      (k.offset + k.length) := by
  unfold zero_regions at h
  cases h1 : string_replace elf d.offset d.length d.length 0 with
  | error e => rw [h1] at h; exact absurd h (by simp [bind, Except.bind])
  | ok e1 =>
    rw [h1] at h
    cases h2 : string_replace e1 s.offset s.length s.length 0 with
    | error e =>
      simp only [bind, Except.bind] at h
      rw [h2] at h
      exact absurd h (by simp)
    | ok e2 =>
      simp only [bind, Except.bind] at h
      rw [h2] at h
      simp only at h
      rw [string_replace_length _ _ _ _ _ h, string_replace_length _ _ _ _ _ h2,
        string_replace_length _ _ _ _ _ h1]

/-- The zeroing step succeeds when the three regions are inside the buffer. -/
theorem zero_regions_ok (elf : List Byte) (d s k : section_stat)
    (hd : d.offset + d.length ≤ elf.length) (hs : s.offset + s.length ≤ elf.length)
    (hk : k.offset + k.length ≤ elf.length) :
    ∃ z, zero_regions elf d s k = .ok z := by
  unfold zero_regions
  have h1 := string_replace_ok elf d.offset d.length d.length 0 (by omega)
  have l1 := string_replace_length _ _ _ _ _ h1
  have h2 := string_replace_ok _ s.offset s.length s.length 0
    (show s.offset ≤ (elf.take d.offset ++ List.replicate d.length (0 : Byte)
      ++ elf.drop (d.offset + min d.length (elf.length - d.offset))).length by omega)
  have l2 := string_replace_length _ _ _ _ _ h2
  simp only [bind, Except.bind, h1, h2]
  exact ⟨_, string_replace_ok _ k.offset k.length k.length 0 (by omega)⟩

/-- Whether the zeroing step succeeds, and what it gives, is the same for two
buffers of the same length that agree outside the three regions. -/
theorem zero_regions_congr (f g : List Byte) (d s k : section_stat)
    (hlen : f.length = g.length)
    (h : ∀ p, ¬ in_region d p → ¬ in_region s p → ¬ in_region k p → f[p]? = g[p]?) :
    zero_regions f d s k = zero_regions g d s k := by
  have key : ∀ (a b : List Byte) (pos len : Nat), a.length = b.length →
      (string_replace a pos len len 0 = .error .out_of_range
        ∧ string_replace b pos len len 0 = .error .out_of_range)
      ∨ ∃ a' b', string_replace a pos len len 0 = .ok a'
        ∧ string_replace b pos len len 0 = .ok b' ∧ a'.length = b'.length := by
    intro a b pos len hab
    by_cases hp : pos ≤ a.length
    · right
      have ha := string_replace_ok a pos len len 0 hp
      have hb := string_replace_ok b pos len len 0 (by omega)
      exact ⟨_, _, ha, hb, by
        rw [string_replace_length _ _ _ _ _ ha, string_replace_length _ _ _ _ _ hb, hab]⟩
    · left
      exact ⟨string_replace_error a pos len len 0 (by omega),
        string_replace_error b pos len len 0 (by omega)⟩
  unfold zero_regions
  simp only [bind, Except.bind]
  rcases key f g d.offset d.length hlen with ⟨h1, h1'⟩ | ⟨f1, g1, h1, h1', l1⟩
  · rw [h1, h1']
  · rw [h1, h1']
    simp only
    rcases key f1 g1 s.offset s.length l1 with ⟨h2, h2'⟩ | ⟨f2, g2, h2, h2', l2⟩
    · rw [h2, h2']
    · rw [h2, h2']
      simp only
      rcases key f2 g2 k.offset k.length l2 with ⟨h3, h3'⟩ | ⟨f3, g3, h3, h3', _⟩
      · rw [h3, h3']
      · rw [h3, h3']
        congr 1
        apply List.ext_getElem?
        intro p
        rw [string_replace_getElem? _ _ _ _ _ h3, string_replace_getElem? _ _ _ _ _ h2,
          string_replace_getElem? _ _ _ _ _ h1, string_replace_getElem? _ _ _ _ _ h3',
          string_replace_getElem? _ _ _ _ _ h2', string_replace_getElem? _ _ _ _ _ h1']
        by_cases hk : k.offset ≤ p ∧ p < k.offset + k.length
        · simp only [hk, and_self, if_true]
        · by_cases hs : s.offset ≤ p ∧ p < s.offset + s.length
          · simp only [hk, hs, and_self, if_true, if_false]
          · by_cases hd : d.offset ≤ p ∧ p < d.offset + d.length
            · simp only [hk, hs, hd, and_self, if_true, if_false]
            · simp only [hk, hs, hd, if_false]
              exact h p hd hs hk

theorem lookup_eq_none {tbl : List section_entry} {name : List Byte}
    (h : ∀ e ∈ tbl, e.name ≠ name) : lookup tbl name = none := by
  induction tbl with
  | nil => rfl
  | cons e es ih =>
    rw [lookup_cons, if_neg (h e (List.mem_cons_self _ _))]
    exact ih (fun e' he' => h e' (List.mem_cons_of_mem _ he'))

set_option maxRecDepth 100000 in
/-- C7, as stated, fails on `elf_short_table`: the header announces three
section headers at offset 76 and the file holds two, named `.digest_md5` and
`.shstrtab`; no entry is named `.sig_key`, and the lookup of `.sig_key` reads
the third header after the end of the 156 bytes of the buffer instead of
failing with "not found". -/
theorem c7_short_table_reads_outside :
    read_entries Elf32 elf_short_table 76 52 2 0
      = some [⟨digest_md5_name, 0, 16⟩,
          ⟨[0x2e, 0x73, 0x68, 0x73, 0x74, 0x72, 0x74, 0x61, 0x62], 52, 23⟩]
    ∧ (appimage_get_elf_section_offset_and_length elf_short_table sig_key_name).result
      = .error .bad_access
    ∧ 159 ∈ (appimage_get_elf_section_offset_and_length elf_short_table sig_key_name).reads
    ∧ elf_short_table.length = 156 := by
  decide

/-- C7, amended: on a buffer of address class 32-bit or 64-bit whose header,
section-header table and section names are inside the buffer (it has a
section table), a requested name that is the name of no entry makes the
locator fail with "section <name> not found" for the requested name, and
every position read on the way is inside the storage of the buffer (the
bytes of the buffer and the terminating NUL at index `size()`). -/
theorem c7_absent_name_not_found (elf name : List Byte) (tbl : List section_entry)
    (htbl : section_table elf = some tbl) (habsent : ∀ e ∈ tbl, e.name ≠ name) :
    (appimage_get_elf_section_offset_and_length elf name).result
      = .error (.section_not_found name)
    ∧ ∀ p ∈ (appimage_get_elf_section_offset_and_length elf name).reads, p ≤ elf.length := by
  have hres : (appimage_get_elf_section_offset_and_length elf name).result
      = .error (.section_not_found name) := by
    rw [locate_result elf name tbl htbl, lookup_eq_none habsent]
  refine ⟨hres, fun p hp => ?_⟩
  have := reads_inside_locate elf name (by rw [hres]; simp) p hp
  simpa [storage, Nat.lt_succ_iff] using this

set_option maxRecDepth 100000 in
/-- C7, amended, on `sample_elf` and the name `.sig_ke`, a proper prefix of
`.sig_key`. -/
theorem c7_absent_name_not_found_witness :
    section_table sample_elf
      = some [⟨digest_md5_name, 256, 16⟩, ⟨sha256_sig_name, 272, 8⟩, ⟨sig_key_name, 280, 4⟩,
          ⟨[0x2e, 0x73, 0x68, 0x73, 0x74, 0x72, 0x74, 0x61, 0x62], 212, 44⟩]
    ∧ (appimage_get_elf_section_offset_and_length sample_elf
          [0x2e, 0x73, 0x69, 0x67, 0x5f, 0x6b, 0x65]).result
        = .error (.section_not_found [0x2e, 0x73, 0x69, 0x67, 0x5f, 0x6b, 0x65])
    ∧ ∀ p ∈ (appimage_get_elf_section_offset_and_length sample_elf
          [0x2e, 0x73, 0x69, 0x67, 0x5f, 0x6b, 0x65]).reads, p ≤ sample_elf.length := by
  have htbl : section_table sample_elf
      = some [⟨digest_md5_name, 256, 16⟩, ⟨sha256_sig_name, 272, 8⟩, ⟨sig_key_name, 280, 4⟩,
          ⟨[0x2e, 0x73, 0x68, 0x73, 0x74, 0x72, 0x74, 0x61, 0x62], 212, 44⟩] := by decide
  exact ⟨htbl, c7_absent_name_not_found sample_elf _ _ htbl (by decide)⟩

/-- C9: when the address-class byte of the buffer (offset `EI_CLASS = 4`) is
neither `ELFCLASS32` nor `ELFCLASS64`, the locator fails with the
unsupported-platform error, whatever the requested name, and the class byte
is the only position it reads: no header field, no section header, no name. -/
theorem c9_unsupported_class (elf name : List Byte) (klass : Nat)
    (hk : read_le elf EI_CLASS 1 = some klass) (h32 : klass ≠ ELFCLASS32)
    (h64 : klass ≠ ELFCLASS64) :
    (appimage_get_elf_section_offset_and_length elf name).result = .error .unsupported_class
    ∧ (appimage_get_elf_section_offset_and_length elf name).reads = [EI_CLASS] := by
  have hload : (load elf EI_CLASS 1).reads = [EI_CLASS] := by rw [load_ok hk]; rfl
  simp only [appimage_get_elf_section_offset_and_length, traced.bind_eq,
    traced.andThen_ok (congrArg traced.result (load_ok hk)), h32, h64, if_false, traced.raise,
    hload, List.append_nil, and_self]

/-- C9 on a buffer of five bytes with class byte 3. -/
theorem c9_unsupported_class_witness :
    read_le [0x7f, 0x45, 0x4c, 0x46, 0x03] EI_CLASS 1 = some 3
    ∧ (appimage_get_elf_section_offset_and_length [0x7f, 0x45, 0x4c, 0x46, 0x03]
        digest_md5_name).result = .error .unsupported_class
    ∧ (appimage_get_elf_section_offset_and_length [0x7f, 0x45, 0x4c, 0x46, 0x03]
        digest_md5_name).reads = [EI_CLASS] :=
  ⟨by decide, c9_unsupported_class _ _ 3 (by decide) (by decide) (by decide)⟩

set_option maxRecDepth 100000 in
/-- C5, as stated, fails on `elf_key_past_end`: the locator returns the three
descriptors, the region of `.sig_key` ends after the end of the buffer, and
the zeroing step turns the buffer of 300 bytes into one of 320 bytes. -/
theorem c5_zeroing_grows_buffer :
    (appimage_get_elf_section_offset_and_length elf_key_past_end digest_md5_name).result
      = .ok ⟨256, 16⟩
    ∧ (appimage_get_elf_section_offset_and_length elf_key_past_end sha256_sig_name).result
      = .ok ⟨272, 8⟩
    ∧ (appimage_get_elf_section_offset_and_length elf_key_past_end sig_key_name).result
      = .ok ⟨280, 40⟩
    ∧ Except.map List.length (zero_regions elf_key_past_end ⟨256, 16⟩ ⟨272, 8⟩ ⟨280, 40⟩)
      = .ok 320
    ∧ elf_key_past_end.length = 300 := by
  decide

/-- C5, amended: for every buffer and three descriptors whose regions lie
inside the buffer (`offset + length <= size`), the zeroing step produces a
buffer of the same length in which every byte inside any of the three regions
is 0 and every byte outside all three regions is unchanged. -/
theorem c5_zeroing_inside (elf : List Byte) (d s k : section_stat)
    (hd : d.offset + d.length ≤ elf.length) (hs : s.offset + s.length ≤ elf.length)
    (hk : k.offset + k.length ≤ elf.length) :
    ∃ z, zero_regions elf d s k = .ok z
      ∧ z.length = elf.length
      ∧ (∀ p, in_region d p ∨ in_region s p ∨ in_region k p → z[p]? = some 0)
      ∧ (∀ p, ¬ in_region d p → ¬ in_region s p → ¬ in_region k p → z[p]? = elf[p]?) := by
  obtain ⟨z, hz⟩ := zero_regions_ok elf d s k hd hs hk
  refine ⟨z, hz, ?_, ?_, ?_⟩
  · rw [zero_regions_length elf z d s k hz]
    omega
  · intro p hp
    rw [zero_regions_getElem? elf z d s k hz, if_pos hp]
  · intro p h1 h2 h3
    rw [zero_regions_getElem? elf z d s k hz, if_neg (by tauto)]

set_option maxRecDepth 100000 in
/-- C5, amended, on `sample_elf` and the descriptors the locator returns for
it. -/
theorem c5_zeroing_inside_witness :
    (appimage_get_elf_section_offset_and_length sample_elf digest_md5_name).result
      = .ok ⟨256, 16⟩
    ∧ (appimage_get_elf_section_offset_and_length sample_elf sha256_sig_name).result
      = .ok ⟨272, 8⟩
    ∧ (appimage_get_elf_section_offset_and_length sample_elf sig_key_name).result
      = .ok ⟨280, 4⟩
    ∧ ∃ z, zero_regions sample_elf ⟨256, 16⟩ ⟨272, 8⟩ ⟨280, 4⟩ = .ok z
      ∧ z.length = sample_elf.length
      ∧ (∀ p, in_region ⟨256, 16⟩ p ∨ in_region ⟨272, 8⟩ p ∨ in_region ⟨280, 4⟩ p →
          z[p]? = some 0)
      ∧ (∀ p, ¬ in_region ⟨256, 16⟩ p → ¬ in_region ⟨272, 8⟩ p → ¬ in_region ⟨280, 4⟩ p →
          z[p]? = sample_elf[p]?) :=
  ⟨by decide, by decide, by decide,
    c5_zeroing_inside sample_elf ⟨256, 16⟩ ⟨272, 8⟩ ⟨280, 4⟩ (by decide) (by decide)
      (by decide)⟩

theorem compute_digest_eq (elf : List Byte) (d s k : section_stat)
    (hd : (appimage_get_elf_section_offset_and_length elf digest_md5_name).result = .ok d)
    (hs : (appimage_get_elf_section_offset_and_length elf sha256_sig_name).result = .ok s)
    (hk : (appimage_get_elf_section_offset_and_length elf sig_key_name).result = .ok k) :
    compute_digest elf
      = if d.length < md5.size then .error (.digest_too_small d.length)
        else match zero_regions elf d s k with
          | .ok z => .ok (d, md5.calculate z)
          | .error e => .error e := by
  unfold compute_digest
  rw [hd, hs, hk]
  simp only [bind, Except.bind, pure, Except.pure]
  split
  · rfl
  · cases zero_regions elf d s k <;> rfl

/-- C4: for two buffers of equal length for which the locator returns the
same three descriptors and which agree at every position outside the digest,
signature and signing-key regions, part 3 computes the same digest (the
digest of the buffer with the three regions zeroed), and so performs the same
file operations, writing the same 16 bytes. -/
theorem c4_neutralization (f g : List Byte) (d s k : section_stat)
    (hlen : f.length = g.length)
    (hfd : (appimage_get_elf_section_offset_and_length f digest_md5_name).result = .ok d)
    (hfs : (appimage_get_elf_section_offset_and_length f sha256_sig_name).result = .ok s)
    (hfk : (appimage_get_elf_section_offset_and_length f sig_key_name).result = .ok k)
    (hgd : (appimage_get_elf_section_offset_and_length g digest_md5_name).result = .ok d)
    (hgs : (appimage_get_elf_section_offset_and_length g sha256_sig_name).result = .ok s)
    (hgk : (appimage_get_elf_section_offset_and_length g sig_key_name).result = .ok k)
    (hagree : ∀ p, p < f.length → ¬ in_region d p → ¬ in_region s p → ¬ in_region k p →
      f[p]? = g[p]?) :
    zero_regions f d s k = zero_regions g d s k
    ∧ compute_digest f = compute_digest g
    ∧ ∀ io, (embed_digest io f).ops = (embed_digest io g).ops
        ∧ (embed_digest io f).result = (embed_digest io g).result := by
  have hz : zero_regions f d s k = zero_regions g d s k := by
    apply zero_regions_congr f g d s k hlen
    intro p h1 h2 h3
    by_cases hp : p < f.length
    · exact hagree p hp h1 h2 h3
    · rw [List.getElem?_eq_none (by omega), List.getElem?_eq_none (by omega)]
  have hc : compute_digest f = compute_digest g := by
    rw [compute_digest_eq f d s k hfd hfs hfk, compute_digest_eq g d s k hgd hgs hgk, hz]
  refine ⟨hz, hc, fun io => ?_⟩
  unfold embed_digest
  rw [hc]
  cases compute_digest g with
  | error e => exact ⟨rfl, rfl⟩
  | ok r =>
    obtain ⟨sd, dg⟩ := r
    simp only
    split
    · exact ⟨rfl, rfl⟩
    · split
      · exact ⟨rfl, rfl⟩
      · exact ⟨rfl, rfl⟩

set_option maxRecDepth 100000 in
/-- C4 on `sample_elf`, whose regions hold leftover bytes, and
`sample_elf_clean`, whose regions hold zeros. -/
theorem c4_neutralization_witness :
    sample_elf ≠ sample_elf_clean
    ∧ compute_digest sample_elf = compute_digest sample_elf_clean :=
  ⟨by decide,
    (c4_neutralization sample_elf sample_elf_clean ⟨256, 16⟩ ⟨272, 8⟩ ⟨280, 4⟩ (by decide)
      (by decide) (by decide) (by decide) (by decide) (by decide) (by decide)
      (by decide!)).2.1⟩

/-! ## Properties of part 3 of `main` -/

theorem andThen_result_ne {α β : Type} (x : traced α) (f : α → traced β) (e : error)
    (hx : x.result ≠ .error e) (hf : ∀ a, (f a).result ≠ .error e) :
    (traced.andThen x f).result ≠ .error e := by
  cases hr : x.result with
  | error e' =>
    rw [traced.andThen_error hr]
    rw [hr] at hx
    intro h
    cases h
    exact hx rfl
  | ok a =>
    rw [traced.andThen_ok hr]
    exact hf a

theorem load_result_ne (elf : List Byte) (pos width n : Nat) :
    (load elf pos width).result ≠ .error (.digest_too_small n) := by
  unfold load
  cases read_le elf pos width <;> simp

theorem load_c_str_result_ne (elf : List Byte) (pos n : Nat) :
    (load_c_str elf pos).result ≠ .error (.digest_too_small n) := by
  unfold load_c_str
  cases read_c_str elf pos <;> simp

theorem scan_result_ne (L : elf_layout) (elf name : List Byte) (shdr str_tab n : Nat) :
    ∀ (fuel i : Nat),
      (scan L elf name shdr str_tab fuel i).result ≠ .error (.digest_too_small n) := by
  intro fuel
  induction fuel with
  | zero => intro i; simp [scan, traced.raise]
  | succ fuel ih =>
    intro i
    unfold scan
    simp only [traced.bind_eq, traced.pure_eq]
    refine andThen_result_ne _ _ _ (load_result_ne elf _ _ n) (fun e_shnum => ?_)
    split
    · refine andThen_result_ne _ _ _ (load_result_ne elf _ _ n) (fun sh_name => ?_)
      refine andThen_result_ne _ _ _ (load_c_str_result_ne elf _ n) (fun s => ?_)
      split
      · refine andThen_result_ne _ _ _ (load_result_ne elf _ _ n) (fun off => ?_)
        refine andThen_result_ne _ _ _ (load_result_ne elf _ _ n) (fun sz => ?_)
        simp [traced.ret]
      · exact ih (i + 1)
    · simp [traced.raise]

theorem locate_in_result_ne (L : elf_layout) (elf name : List Byte) (n : Nat) :
    (locate_in L elf name).result ≠ .error (.digest_too_small n) := by
  unfold locate_in
  simp only [traced.bind_eq]
  refine andThen_result_ne _ _ _ (load_result_ne elf _ _ n) (fun e_shoff => ?_)
  refine andThen_result_ne _ _ _ (load_result_ne elf _ _ n) (fun e_shstrndx => ?_)
  refine andThen_result_ne _ _ _ (load_result_ne elf _ _ n) (fun str_tab => ?_)
  exact scan_result_ne L elf name _ _ n _ _

/-- The locator never fails with the "too small" error. -/
theorem locate_result_ne (elf name : List Byte) (n : Nat) :
    (appimage_get_elf_section_offset_and_length elf name).result
      ≠ .error (.digest_too_small n) := by
  unfold appimage_get_elf_section_offset_and_length
  simp only [traced.bind_eq]
  refine andThen_result_ne _ _ _ (load_result_ne elf _ _ n) (fun klass => ?_)
  split
  · exact locate_in_result_ne _ elf name n
  · split
    · exact locate_in_result_ne _ elf name n
    · simp [traced.raise]

theorem zero_regions_ne (elf : List Byte) (d s k : section_stat) (n : Nat) :
    zero_regions elf d s k ≠ .error (.digest_too_small n) := by
  have key : ∀ (a : List Byte) (pos len : Nat),
      string_replace a pos len len 0 ≠ .error (.digest_too_small n) := by
    intro a pos len
    unfold string_replace
    split <;> simp
  unfold zero_regions
  simp only [bind, Except.bind]
  cases h1 : string_replace elf d.offset d.length d.length 0 with
  | error e => intro h; exact key _ _ _ (h1.trans h)
  | ok e1 =>
    simp only
    cases h2 : string_replace e1 s.offset s.length s.length 0 with
    | error e => intro h; exact key _ _ _ (h2.trans h)
    | ok e2 => exact key _ _ _

set_option maxRecDepth 100000 in
/-- C10, as stated, fails on `elf_digest_only`: the section `.digest_md5` is
located with length 15, and part 3 fails with "section .sha256_sig not
found", not with the "too small" error, because the three lookups come
before the length check. -/
theorem c10_not_found_before_too_small :
    (appimage_get_elf_section_offset_and_length elf_digest_only digest_md5_name).result
      = .ok ⟨160, 15⟩
    ∧ (embed_digest ⟨true, true, 16⟩ elf_digest_only).result
      = .error (.section_not_found sha256_sig_name) := by
  decide

/-- C10, amended: for every artifact in which the `.digest_md5` section is
located with length smaller than 16, part 3 of `main` fails before the file
is opened for updating: no operation is performed on the file and its content
is unchanged; the failure is the "too small" error when the `.sha256_sig` and
`.sig_key` sections are located as well. With length 16 or more, part 3 does
not fail with the "too small" error. -/
theorem c10_digest_too_small (io : io_outcome) (file : List Byte) (d : section_stat)
    (hd : (appimage_get_elf_section_offset_and_length file digest_md5_name).result = .ok d) :
    (d.length < 16 →
      (∃ e, embed_digest io file = ⟨.error e, [], file⟩)
      ∧ ∀ s k,
        (appimage_get_elf_section_offset_and_length file sha256_sig_name).result = .ok s →
        (appimage_get_elf_section_offset_and_length file sig_key_name).result = .ok k →
        embed_digest io file = ⟨.error (.digest_too_small d.length), [], file⟩)
    ∧ (16 ≤ d.length →
      ∀ n, (embed_digest io file).result ≠ .error (.digest_too_small n)) := by
  refine ⟨fun hlt => ⟨?_, ?_⟩, fun hge n => ?_⟩
  · unfold embed_digest compute_digest
    rw [hd]
    simp only [bind, Except.bind]
    cases (appimage_get_elf_section_offset_and_length file sha256_sig_name).result with
    | error e => exact ⟨e, rfl⟩
    | ok s =>
      simp only
      cases (appimage_get_elf_section_offset_and_length file sig_key_name).result with
      | error e => exact ⟨e, rfl⟩
      | ok k =>
        simp only [md5.size, hlt, if_true]
        exact ⟨_, rfl⟩
  · intro s k hs hk
    unfold embed_digest
    rw [compute_digest_eq file d s k hd hs hk, if_pos (by simpa [md5.size] using hlt)]
  · have hc : compute_digest file ≠ .error (.digest_too_small n) := by
      cases hs : (appimage_get_elf_section_offset_and_length file sha256_sig_name).result with
      | error e =>
        unfold compute_digest
        rw [hd, hs]
        simp only [bind, Except.bind]
        intro h
        cases h
        exact locate_result_ne file sha256_sig_name n hs
      | ok s =>
        cases hk : (appimage_get_elf_section_offset_and_length file sig_key_name).result with
        | error e =>
          unfold compute_digest
          rw [hd, hs, hk]
          simp only [bind, Except.bind]
          intro h
          cases h
          exact locate_result_ne file sig_key_name n hk
        | ok k =>
          rw [compute_digest_eq file d s k hd hs hk,
            if_neg (by simp only [md5.size]; omega)]
          cases hz : zero_regions file d s k with
          | error e =>
            simp only
            intro h
            cases h
            exact zero_regions_ne file d s k n hz
          | ok z => simp
    unfold embed_digest
    cases hcd : compute_digest file with
    | error e =>
      simp only
      intro h
      cases h
      exact hc hcd
    | ok r =>
      obtain ⟨sd, dg⟩ := r
      simp only
      split
      · simp
      · split
        · simp
        · simp only
          split <;> simp

set_option maxRecDepth 100000 in
/-- C10, amended, on `sample_elf_short_digest`, where the three sections are
located and `.digest_md5` has length 15. -/
theorem c10_digest_too_small_witness :
    (appimage_get_elf_section_offset_and_length sample_elf_short_digest
        digest_md5_name).result = .ok ⟨256, 15⟩
    ∧ embed_digest ⟨true, true, 16⟩ sample_elf_short_digest
        = ⟨.error (.digest_too_small 15), [], sample_elf_short_digest⟩ :=
  ⟨by decide,
    ((c10_digest_too_small ⟨true, true, 16⟩ sample_elf_short_digest ⟨256, 15⟩
      (by decide)).1 (by decide)).2 ⟨272, 8⟩ ⟨280, 4⟩ (by decide) (by decide)⟩

theorem md5_b_length (r : md5.md5_t) : r.b.length = 16 := rfl

theorem write_at_eq (file bytes : List Byte) (offset : Nat)
    (h : offset + bytes.length ≤ file.length) :
    write_at file offset bytes
      = file.take offset ++ bytes ++ file.drop (offset + bytes.length) := by
  unfold write_at
  rw [show offset - file.length = 0 by omega]
  simp

theorem write_at_length (file bytes : List Byte) (offset : Nat)
    (h : offset + bytes.length ≤ file.length) :
    (write_at file offset bytes).length = file.length := by
  rw [write_at_eq file bytes offset h]
  simp only [List.length_append, List.length_take, List.length_drop]
  omega

theorem write_at_getElem? (file bytes : List Byte) (offset : Nat)
    (h : offset + bytes.length ≤ file.length) (p : Nat)
    (hp : p < offset ∨ offset + bytes.length ≤ p) :
    (write_at file offset bytes)[p]? = file[p]? := by
  rw [write_at_eq file bytes offset h]
  have htake : (file.take offset).length = offset := by simp; omega
  rcases hp with hp | hp
  · rw [List.append_assoc, List.getElem?_append_left (by omega), List.getElem?_take_of_lt hp]
  · rw [List.getElem?_append_right (by simp; omega)]
    simp only [List.length_append, htake, List.getElem?_drop]
    congr 1
    omega

theorem write_at_stored (file bytes : List Byte) (offset : Nat)
    (h : offset + bytes.length ≤ file.length) :
    ((write_at file offset bytes).drop offset).take bytes.length = bytes := by
  rw [write_at_eq file bytes offset h, List.append_assoc]
  have htake : (file.take offset).length = offset := by simp; omega
  rw [List.drop_append_of_le_length (by omega), List.drop_of_length_le (by omega),
    List.nil_append, List.take_append_of_le_length (by omega), List.take_length]

theorem storage_getElem?_congr (f g : List Byte) (hlen : f.length = g.length) (p : Nat)
    (h : f[p]? = g[p]?) : (storage f)[p]? = (storage g)[p]? := by
  unfold storage
  by_cases hp : p < f.length
  · rw [List.getElem?_append_left hp, List.getElem?_append_left (by omega), h]
  · rw [List.getElem?_append_right (by omega), List.getElem?_append_right (by omega), hlen]

set_option maxRecDepth 100000 in
/-- C3, as stated, fails on `elf_name_in_digest`: the three regions
`[256, 272)`, `[272, 280)`, `[280, 284)` lie inside the 300 bytes, the digest
region is 16 bytes long and overlaps neither the ELF header `[0, 52)`, nor
the section-header table `[52, 212)` (four headers of 40 bytes at `e_shoff =
52`), nor the string table `[212, 256)` (offset 212 and size 44 in the header
with index `e_shstrndx = 3`); the run of part 3 succeeds, and on the file it
leaves the lookup of `.sha256_sig` fails, because the name of that section is
read at `str_tab + sh_name = 256`, where the digest has been written. -/
theorem c3_name_outside_string_table :
    elf_name_in_digest.length = 300
    ∧ (appimage_get_elf_section_offset_and_length elf_name_in_digest digest_md5_name).result
      = .ok ⟨256, 16⟩
    ∧ (appimage_get_elf_section_offset_and_length elf_name_in_digest sha256_sig_name).result
      = .ok ⟨272, 8⟩
    ∧ (appimage_get_elf_section_offset_and_length elf_name_in_digest sig_key_name).result
      = .ok ⟨280, 4⟩
    ∧ read_le elf_name_in_digest 32 4 = some 52
    ∧ read_le elf_name_in_digest 48 2 = some 4
    ∧ read_le elf_name_in_digest 50 2 = some 3
    ∧ read_le elf_name_in_digest (52 + 3 * 40 + 16) 4 = some 212
    ∧ read_le elf_name_in_digest (52 + 3 * 40 + 20) 4 = some 44
    ∧ (embed_digest ⟨true, true, 16⟩ elf_name_in_digest).result = .ok ()
    ∧ compute_digest (embed_digest ⟨true, true, 16⟩ elf_name_in_digest).file
      = .error (.section_not_found sha256_sig_name) := by
  decide

/-- C3, amended: for every artifact buffer `f` whose three located regions
lie inside `f`, whose digest region is at least 16 bytes long and contains no
position that the three lookups read (the class byte, the header fields, the
fields of the section headers, and the names, which the code reads wherever
string-table base + `sh_name` points), a successful run of part 3 leaves the
file `f' = f with the digest h of the zeroed buffer written at the offset of
the digest region`; locating the three regions in `f'`, zeroing them and
hashing again yields `h`, the 16 bytes stored at the offset of the digest
region of `f'`. -/
theorem c3_embedded_digest_reproduced (io : io_outcome) (f : List Byte) (d s k : section_stat)
    (hopen : io.fopen_ok = true) (hseek : io.fseek_ok = true) (hwrite : 16 ≤ io.fwrite_count)
    (hd : (appimage_get_elf_section_offset_and_length f digest_md5_name).result = .ok d)
    (hs : (appimage_get_elf_section_offset_and_length f sha256_sig_name).result = .ok s)
    (hk : (appimage_get_elf_section_offset_and_length f sig_key_name).result = .ok k)
    (hdin : d.offset + d.length ≤ f.length) (hsin : s.offset + s.length ≤ f.length)
    (hkin : k.offset + k.length ≤ f.length) (hlen : 16 ≤ d.length)
    (hdisj : ∀ p ∈ parsed_positions f, ¬ in_region d p) :
    ∃ z, zero_regions f d s k = .ok z
      ∧ (embed_digest io f).result = .ok ()
      ∧ (embed_digest io f).file = write_at f d.offset (md5.calculate z).b
      ∧ compute_digest (embed_digest io f).file = .ok (d, md5.calculate z)
      ∧ (((embed_digest io f).file).drop d.offset).take 16 = (md5.calculate z).b := by
  obtain ⟨z, hz⟩ := zero_regions_ok f d s k hdin hsin hkin
  have hcf : compute_digest f = .ok (d, md5.calculate z) := by
    rw [compute_digest_eq f d s k hd hs hk, if_neg (by simp only [md5.size]; omega), hz]
  have hbl : (md5.calculate z).b.length = 16 := md5_b_length _
  have hin : d.offset + (md5.calculate z).b.length ≤ f.length := by omega
  have hfile : (embed_digest io f).file = write_at f d.offset (md5.calculate z).b := by
    unfold embed_digest
    rw [hcf]
    simp only [hopen, hseek, Bool.not_true, Bool.false_eq_true, if_false]
    rw [List.take_of_length_le (by omega)]
  have hres : (embed_digest io f).result = .ok () := by
    unfold embed_digest
    rw [hcf]
    simp only [hopen, hseek, Bool.not_true, Bool.false_eq_true, if_false, md5.size]
    rw [if_neg (by omega)]
  have hlen' : f.length = (write_at f d.offset (md5.calculate z).b).length :=
    (write_at_length f _ d.offset hin).symm
  have hout : ∀ p, ¬ in_region d p →
      f[p]? = (write_at f d.offset (md5.calculate z).b)[p]? := by
    intro p hp
    rw [write_at_getElem? f _ d.offset hin p (by unfold in_region at hp; omega)]
  have hframe : ∀ name, (∀ p ∈ (appimage_get_elf_section_offset_and_length f name).reads,
        ¬ in_region d p) →
      appimage_get_elf_section_offset_and_length (write_at f d.offset (md5.calculate z).b) name
        = appimage_get_elf_section_offset_and_length f name := by
    intro name hname
    apply frame_locate f _ name hlen'
    intro p hp
    exact storage_getElem?_congr f _ hlen' p (hout p (hname p hp))
  have hd' := hframe digest_md5_name (fun p hp => hdisj p (by
    unfold parsed_positions
    simp only [List.mem_append]
    exact Or.inl (Or.inl hp)))
  have hs' := hframe sha256_sig_name (fun p hp => hdisj p (by
    unfold parsed_positions
    simp only [List.mem_append]
    exact Or.inl (Or.inr hp)))
  have hk' := hframe sig_key_name (fun p hp => hdisj p (by
    unfold parsed_positions
    simp only [List.mem_append]
    exact Or.inr hp))
  have hz' : zero_regions (write_at f d.offset (md5.calculate z).b) d s k = .ok z := by
    rw [← hz]
    exact (zero_regions_congr f _ d s k hlen' (fun p h1 _ _ => hout p h1)).symm
  refine ⟨z, hz, hres, hfile, ?_, ?_⟩
  · rw [hfile, compute_digest_eq _ d s k (by rw [hd']; exact hd) (by rw [hs']; exact hs)
      (by rw [hk']; exact hk), if_neg (by simp only [md5.size]; omega), hz']
  · rw [hfile]
    have := write_at_stored f (md5.calculate z).b d.offset hin
    rw [hbl] at this
    exact this

set_option maxRecDepth 100000 in
/-- C3, amended, on `sample_elf`. -/
theorem c3_embedded_digest_reproduced_witness :
    (appimage_get_elf_section_offset_and_length sample_elf digest_md5_name).result
      = .ok ⟨256, 16⟩
    ∧ (∀ p ∈ parsed_positions sample_elf, ¬ in_region ⟨256, 16⟩ p)
    ∧ ∃ z, zero_regions sample_elf ⟨256, 16⟩ ⟨272, 8⟩ ⟨280, 4⟩ = .ok z
      ∧ (embed_digest ⟨true, true, 16⟩ sample_elf).result = .ok ()
      ∧ (embed_digest ⟨true, true, 16⟩ sample_elf).file
          = write_at sample_elf 256 (md5.calculate z).b
      ∧ compute_digest (embed_digest ⟨true, true, 16⟩ sample_elf).file
          = .ok (⟨256, 16⟩, md5.calculate z)
      ∧ (((embed_digest ⟨true, true, 16⟩ sample_elf).file).drop 256).take 16
          = (md5.calculate z).b :=
  ⟨by decide, by decide,
    c3_embedded_digest_reproduced ⟨true, true, 16⟩ sample_elf ⟨256, 16⟩ ⟨272, 8⟩ ⟨280, 4⟩
      rfl rfl (by decide) (by decide) (by decide) (by decide) (by decide) (by decide)
      (by decide) (by decide) (by decide)⟩

/-! ## The padding and the steps of the digest engine -/

/-- C12: the padded message built by `md5::calculate` from a message `m` of
`n` bytes is `m`, one byte `0x80`, `k` zero bytes and the 8-byte
little-endian encoding of `8 n mod 2^64`, where `k` is the least number with
`(n + 1 + k) mod 64 = 56`; its length is a multiple of 64, the smallest one
that is at least `n + 9`, and `m` is a prefix of it. -/
theorem c12_padding_shape (m : List Byte) :
    md5.padding m
      = m ++ [0x80] ++ List.replicate (md5_spec.zero_count m.length) 0
          ++ le_bytes 8 ((8 * m.length) % 2 ^ 64)
    ∧ (m.length + 1 + md5_spec.zero_count m.length) % 64 = 56
    ∧ (∀ k, (m.length + 1 + k) % 64 = 56 → md5_spec.zero_count m.length ≤ k)
    ∧ (md5.padding m).length % 64 = 0
    ∧ m.length + 9 ≤ (md5.padding m).length
    ∧ (∀ len, len % 64 = 0 → m.length + 9 ≤ len → (md5.padding m).length ≤ len)
    ∧ m <+: md5.padding m := by
  have hshape : md5.padding m
      = m ++ [0x80] ++ List.replicate (md5_spec.zero_count m.length) 0
          ++ le_bytes 8 ((8 * m.length) % 2 ^ 64) := by
    unfold md5.padding
    simp only
    rw [md5.push_bits_eq, md5.pad_zeros_eq 64 _ (by omega)]
    have hk : (119 - ((m ++ [(0x80 : Byte)]).length + 63) % 64) % 64
        = md5_spec.zero_count m.length := by
      simp only [List.length_append, List.length_singleton, md5_spec.zero_count]; omega
    rw [hk, Nat.mul_comm]
  have hz : md5_spec.zero_count m.length = (119 - m.length % 64) % 64 := rfl
  have hlen : (md5.padding m).length = m.length + 1 + md5_spec.zero_count m.length + 8 := by
    rw [hshape]
    simp [le_bytes]
    omega
  refine ⟨hshape, ?_, ?_, ?_, ?_, ?_, ?_⟩
  · rw [hz]; omega
  · intro k hk; rw [hz]; omega
  · rw [hlen, hz]; omega
  · rw [hlen]; omega
  · intro len h1 h2; rw [hlen, hz]; omega
  · rw [hshape, List.append_assoc, List.append_assoc]
    exact List.prefix_append _ _

theorem step_j (msg : List Byte) (blk_pos : Nat) (st : md5.step_state) (i : Nat)
    (hi : i < 64) :
    (md5.step msg blk_pos st i).j = md5_spec.word_index (i / 16) (i % 16) := by
  have hr : i / 16 = 0 ∨ i / 16 = 1 ∨ i / 16 = 2 ∨ i / 16 = 3 := by omega
  unfold md5.step
  simp only [md5.steps_per_round, md5.words_per_block]
  rcases hr with h | h | h | h <;> rw [h] <;> simp only [md5_spec.word_index] <;>
    show @Eq Nat _ _ <;> omega

theorem word_index_lt (r s : Nat) (hs : s < 16) : md5_spec.word_index r s < 16 := by
  unfold md5_spec.word_index
  split <;> omega

/-- C15: for every step `i` in `0..63`, one iteration of the step loop of
`md5::calculate` maps the working registers `(A, B, C, D)` to
`(D, B + rotate_left(f(B, C, D) + A + K[i] + w[j], S[i]), B, C)`, the
additions being modulo `2^32`, where `f` is `F, G, H, I` for `i / 16` equal
to `0, 1, 2, 3` and `j` is the message-word index of the round. -/
theorem c15_step_registers (msg : List Byte) (blk_pos : Nat) (st : md5.step_state) (i : Nat)
    (hi : i < 64) :
    (md5.step msg blk_pos st i).buffer
      = { A := st.buffer.D
          B := (st.buffer.B
                + md5.rotate_left
                    ((md5_spec.round_fn (i / 16) st.buffer.B st.buffer.C st.buffer.D
                        + st.buffer.A + md5.K.getD i 0
                        + md5.blk_w msg blk_pos (md5_spec.word_index (i / 16) (i % 16)))
                      % 2 ^ 32)
                    (md5.S.getD i 0)) % 2 ^ 32
          C := st.buffer.B
          D := st.buffer.C } := by
  have hr : i / 16 = 0 ∨ i / 16 = 1 ∨ i / 16 = 2 ∨ i / 16 = 3 := by omega
  have hadd : ∀ f a k w : Nat, (f + (a + k + w)) % 2 ^ 32 = (f + a + k + w) % 2 ^ 32 := by
    intro f a k w; omega
  unfold md5.step
  simp only [md5.steps_per_round, md5.words_per_block]
  rcases hr with h | h | h | h
  · rw [h]
    simp only [md5_spec.round_fn, md5_spec.word_index, hadd,
      show i % 16 = i by omega]
  · rw [h]
    simp only [md5_spec.round_fn, md5_spec.word_index, hadd,
      show (5 * i + 1) % 16 = (5 * (i % 16) + 1) % 16 by omega]
  · rw [h]
    simp only [md5_spec.round_fn, md5_spec.word_index, hadd,
      show (3 * i + 5) % 16 = (3 * (i % 16) + 5) % 16 by omega]
  · rw [h]
    simp only [md5_spec.round_fn, md5_spec.word_index, hadd,
      show (7 * i) % 16 = (7 * (i % 16)) % 16 by omega]

/-- C15 at step 17 (round 1, function `G`, message word 6) on the block of
`msg_digits` that starts at 0, from the initial accumulators. -/
theorem c15_step_registers_witness :
    (17 : Nat) < 64
    ∧ (md5.step msg_digits 0 ⟨md5_spec.init, 0, 0⟩ 17).buffer
      = { A := md5_spec.init.D
          B := (md5_spec.init.B
                + md5.rotate_left
                    ((md5.G md5_spec.init.B md5_spec.init.C md5_spec.init.D
                        + md5_spec.init.A + md5.K.getD 17 0
                        + md5.blk_w msg_digits 0 6) % 2 ^ 32)
                    (md5.S.getD 17 0)) % 2 ^ 32
          C := md5_spec.init.B
          D := md5_spec.init.C } :=
  ⟨by decide, c15_step_registers msg_digits 0 ⟨md5_spec.init, 0, 0⟩ 17 (by decide)⟩

/-- C16: for every step `i` in `0..63`, the message-word index `j` that the
step computes from the global step number `i` is the formula of its round at
the step number within the round, `s = i mod 16`: `s` in round 1,
`(5 s + 1) mod 16` in round 2, `(3 s + 5) mod 16` in round 3 and
`(7 s) mod 16` in round 4; and `j < 16`, so that the four bytes of `blk.w[j]`
are among the 64 bytes of the block. -/
theorem c16_word_index (msg : List Byte) (blk_pos : Nat) (st : md5.step_state) (i : Nat)
    (hi : i < 64) :
    (i < 16 → (md5.step msg blk_pos st i).j = i % 16)
    ∧ (16 ≤ i → i < 32 → (md5.step msg blk_pos st i).j = (5 * (i % 16) + 1) % 16)
    ∧ (32 ≤ i → i < 48 → (md5.step msg blk_pos st i).j = (3 * (i % 16) + 5) % 16)
    ∧ (48 ≤ i → (md5.step msg blk_pos st i).j = (7 * (i % 16)) % 16)
    ∧ (md5.step msg blk_pos st i).j < 16
    ∧ blk_pos + 4 * (md5.step msg blk_pos st i).j + 3 < blk_pos + md5.block_size := by
  rw [step_j msg blk_pos st i hi]
  have hj : md5_spec.word_index (i / 16) (i % 16) < 16 := word_index_lt _ _ (by omega)
  simp only [md5.block_size, md5.words_per_block]
  refine ⟨fun h1 => ?_, fun h1 h2 => ?_, fun h1 h2 => ?_, fun h1 => ?_, ?_, ?_⟩
  · rw [show i / 16 = 0 by omega]; rfl
  · rw [show i / 16 = 1 by omega]; rfl
  · rw [show i / 16 = 2 by omega]; rfl
  · rw [show i / 16 = 3 by omega]; rfl
  · exact hj
  · omega

/-- C16 at step 37 (round 3): the word index is `(3 * 5 + 5) mod 16 = 4`. -/
theorem c16_word_index_witness :
    (37 : Nat) < 64 ∧ (md5.step msg_abc 0 ⟨md5_spec.init, 0, 0⟩ 37).j = 4 :=
  ⟨by decide, by
    have h := (c16_word_index msg_abc 0 ⟨md5_spec.init, 0, 0⟩ 37 (by decide)).2.2.1
      (by decide) (by decide)
    exact h⟩

/-- C18: in each of the four rounds, the message-word indices of the sixteen
steps of the round are a rearrangement of `0, ..., 15`: every 32-bit word of
the block is used exactly once per round, hence by exactly four of the 64
steps. -/
theorem c18_word_index_bijective (msg : List Byte) (blk_pos : Nat) (st : md5.step_state) :
    (∀ r, r < 4 →
      ((List.range 16).map fun s => (md5.step msg blk_pos st (16 * r + s)).j).Perm
        (List.range 16))
    ∧ (∀ r j, r < 4 → j < 16 →
      ((List.range 16).filter fun s => (md5.step msg blk_pos st (16 * r + s)).j = j).length
        = 1)
    ∧ (∀ j, j < 16 →
      ((List.range 64).filter fun i => (md5.step msg blk_pos st i).j = j).length = 4) := by
  have hmap : ∀ r, r < 4 →
      ((List.range 16).map fun s => (md5.step msg blk_pos st (16 * r + s)).j)
        = (List.range 16).map fun s => md5_spec.word_index r s := by
    intro r hr
    apply List.map_congr_left
    intro s hs
    have hs' : s < 16 := List.mem_range.mp hs
    rw [step_j msg blk_pos st (16 * r + s) (by omega),
      show (16 * r + s) / 16 = r by omega, show (16 * r + s) % 16 = s by omega]
  have hfil : ∀ r j, r < 4 →
      ((List.range 16).filter fun s => (md5.step msg blk_pos st (16 * r + s)).j = j)
        = (List.range 16).filter fun s => md5_spec.word_index r s = j := by
    intro r j hr
    apply List.filter_congr
    intro s hs
    have hs' : s < 16 := List.mem_range.mp hs
    rw [step_j msg blk_pos st (16 * r + s) (by omega),
      show (16 * r + s) / 16 = r by omega, show (16 * r + s) % 16 = s by omega]
  have hall : ∀ j,
      ((List.range 64).filter fun i => (md5.step msg blk_pos st i).j = j)
        = (List.range 64).filter fun i => md5_spec.word_index (i / 16) (i % 16) = j := by
    intro j
    apply List.filter_congr
    intro i hi
    rw [step_j msg blk_pos st i (List.mem_range.mp hi)]
  refine ⟨?_, ?_, ?_⟩
  · intro r hr
    rw [hmap r hr]
    have hr' : r = 0 ∨ r = 1 ∨ r = 2 ∨ r = 3 := by omega
    rcases hr' with rfl | rfl | rfl | rfl <;> decide
  · intro r j hr hj
    rw [hfil r j hr]
    have hr' : r = 0 ∨ r = 1 ∨ r = 2 ∨ r = 3 := by omega
    rcases hr' with rfl | rfl | rfl | rfl <;> interval_cases j <;> decide
  · intro j hj
    rw [hall j]
    interval_cases j <;> decide

/-- C18 in round 2 (steps 32 to 47). -/
theorem c18_word_index_bijective_witness :
    (2 : Nat) < 4
    ∧ ((List.range 16).map fun s =>
        (md5.step msg_abc 0 ⟨md5_spec.init, 0, 0⟩ (16 * 2 + s)).j).Perm (List.range 16) :=
  ⟨by decide, (c18_word_index_bijective msg_abc 0 ⟨md5_spec.init, 0, 0⟩).1 2 (by decide)⟩

/-- For a 32-bit word and a shift count from 1 to 31, the two shifted parts of
`rotate_left` have no bit in common, so that their bitwise "or" is their
sum. -/
theorem rotate_left_sum (x n : Nat) (hx : x < 2 ^ 32) (hn1 : 1 ≤ n) (hn : n ≤ 31) :
    md5.rotate_left x n = (x * 2 ^ n) % 2 ^ 32 + x / 2 ^ (32 - n) := by
  have hpow : (2 : Nat) ^ 32 = 2 ^ n * 2 ^ (32 - n) := by
    rw [← pow_add]; congr 1; omega
  have hhi : x / 2 ^ (32 - n) < 2 ^ n := by
    rw [Nat.div_lt_iff_lt_mul (by positivity)]
    rw [hpow] at hx
    exact hx
  unfold md5.rotate_left
  rw [Nat.shiftLeft_eq, Nat.shiftRight_eq_div_pow, Nat.mul_comm x (2 ^ n)]
  have hmod : (2 ^ n * x) % 2 ^ 32 = 2 ^ n * (x % 2 ^ (32 - n)) := by
    rw [hpow, Nat.mul_mod_mul_left]
  rw [hmod, ← Nat.mul_add_lt_is_or hhi]

theorem rotate_arith (a b x : Nat) (ha : 0 < a) (hx : x < a * b) :
    (x * a) % (a * b) + x / b < a * b
    ∧ (((x * a) % (a * b) + x / b) * b) % (a * b) + ((x * a) % (a * b) + x / b) / a = x := by
  have hb : 0 < b := by
    rcases Nat.eq_zero_or_pos b with h | h
    · rw [h] at hx; simp at hx
    · exact h
  have hhi : x / b < a := by
    rw [Nat.div_lt_iff_lt_mul hb]
    exact hx
  have hlo : x % b < b := Nat.mod_lt _ hb
  have h1 : (x * a) % (a * b) = a * (x % b) := by
    rw [Nat.mul_comm x a, Nat.mul_mod_mul_left]
  rw [h1]
  constructor
  · calc a * (x % b) + x / b < a * (x % b) + a := by omega
      _ = a * (x % b + 1) := by ring
      _ ≤ a * b := Nat.mul_le_mul_left a hlo
  · have h2 : (a * (x % b) + x / b) % a = x / b := by
      rw [Nat.mul_add_mod, Nat.mod_eq_of_lt hhi]
    have h3 : (a * (x % b) + x / b) / a = x % b := by
      rw [Nat.mul_add_div ha, Nat.div_eq_of_lt hhi, Nat.add_zero]
    rw [Nat.mul_comm (a * (x % b) + x / b) b, Nat.mul_comm a b, Nat.mul_mod_mul_left, h2, h3]
    exact Nat.div_add_mod x b

theorem rotate_sum_lt (x n : Nat) (hx : x < 2 ^ 32) (hn1 : 1 ≤ n) (hn : n ≤ 31) :
    (x * 2 ^ n) % 2 ^ 32 + x / 2 ^ (32 - n) < 2 ^ 32 := by
  have hpow : (2 : Nat) ^ 32 = 2 ^ n * 2 ^ (32 - n) := by
    rw [← pow_add]; congr 1; omega
  have h := (rotate_arith (2 ^ n) (2 ^ (32 - n)) x (by positivity) (by rw [← hpow]; exact hx)).1
  rw [← hpow] at h
  exact h

theorem rotate_sum_inverse (x n : Nat) (hx : x < 2 ^ 32) (hn1 : 1 ≤ n) (hn : n ≤ 31) :
    (((x * 2 ^ n) % 2 ^ 32 + x / 2 ^ (32 - n)) * 2 ^ (32 - n)) % 2 ^ 32
      + ((x * 2 ^ n) % 2 ^ 32 + x / 2 ^ (32 - n)) / 2 ^ (32 - (32 - n)) = x := by
  have hpow : (2 : Nat) ^ 32 = 2 ^ n * 2 ^ (32 - n) := by
    rw [← pow_add]; congr 1; omega
  have h := (rotate_arith (2 ^ n) (2 ^ (32 - n)) x (by positivity) (by rw [← hpow]; exact hx)).2
  rw [← hpow] at h
  rw [show 32 - (32 - n) = n by omega]
  exact h

/-- C19: every rotation amount of the table `S` is between 1 and 31; and for
every 32-bit word `x` and every `n` from 1 to 31, the two shift counts `n`
and `32 - n` of `rotate_left(x, n)` are between 1 and 31, the result is
`((x * 2^n) mod 2^32) + (x div 2^(32 - n))`, a 32-bit word, and
`rotate_left(., 32 - n)` undoes `rotate_left(., n)` and is undone by it: the
rotation is a bijection on 32-bit words. -/
theorem c19_rotate_left_rotation :
    (∀ i, i < 64 → 1 ≤ md5.S.getD i 0 ∧ md5.S.getD i 0 ≤ 31)
    ∧ ∀ x n : Nat, x < 2 ^ 32 → 1 ≤ n → n ≤ 31 →
        (1 ≤ 32 - n ∧ 32 - n ≤ 31)
        ∧ md5.rotate_left x n = (x * 2 ^ n) % 2 ^ 32 + x / 2 ^ (32 - n)
        ∧ md5.rotate_left x n < 2 ^ 32
        ∧ md5.rotate_left (md5.rotate_left x n) (32 - n) = x
        ∧ md5.rotate_left (md5.rotate_left x (32 - n)) n = x := by
  constructor
  · intro i hi
    interval_cases i <;> decide
  · intro x n hx hn1 hn
    have hlt : ∀ y m : Nat, y < 2 ^ 32 → 1 ≤ m → m ≤ 31 → md5.rotate_left y m < 2 ^ 32 := by
      intro y m hy hm1 hm
      rw [rotate_left_sum y m hy hm1 hm]
      exact rotate_sum_lt y m hy hm1 hm
    have hinv : ∀ y m : Nat, y < 2 ^ 32 → 1 ≤ m → m ≤ 31 →
        md5.rotate_left (md5.rotate_left y m) (32 - m) = y := by
      intro y m hy hm1 hm
      rw [rotate_left_sum _ (32 - m) (hlt y m hy hm1 hm) (by omega) (by omega),
        rotate_left_sum y m hy hm1 hm]
      exact rotate_sum_inverse y m hy hm1 hm
    refine ⟨⟨by omega, by omega⟩, rotate_left_sum x n hx hn1 hn, hlt x n hx hn1 hn,
      hinv x n hx hn1 hn, ?_⟩
    have h := hinv x (32 - n) hx (by omega) (by omega)
    rwa [show 32 - (32 - n) = n by omega] at h

/-- C19 at the word `0x80000001` and the rotation amount 7. -/
theorem c19_rotate_left_rotation_witness :
    (0x80000001 : Nat) < 2 ^ 32
    ∧ md5.rotate_left 0x80000001 7 = 0xc0
    ∧ md5.rotate_left (md5.rotate_left 0x80000001 7) (32 - 7) = 0x80000001 :=
  ⟨by decide, by decide,
    (c19_rotate_left_rotation.2 0x80000001 7 (by decide) (by decide) (by decide)).2.2.2.1⟩

/-! ## The digest stage on the file -/

theorem write_at_outside (file bytes : List Byte) (offset : Nat)
    (h : offset ≤ file.length) (p : Nat) (hp : p < offset ∨ offset + bytes.length ≤ p) :
    (write_at file offset bytes)[p]? = file[p]? := by
  unfold write_at
  rw [show offset - file.length = 0 by omega]
  simp only [List.replicate_zero, List.append_nil]
  have htake : (file.take offset).length = offset := by simp; omega
  rcases hp with hp | hp
  · rw [List.append_assoc, List.getElem?_append_left (by omega), List.getElem?_take_of_lt hp]
  · rw [List.getElem?_append_right (by simp; omega)]
    simp only [List.length_append, htake, List.getElem?_drop]
    congr 1
    omega

theorem write_at_inside (file bytes : List Byte) (offset : Nat) (h : offset ≤ file.length) :
    ((write_at file offset bytes).drop offset).take bytes.length = bytes := by
  unfold write_at
  rw [show offset - file.length = 0 by omega]
  simp only [List.replicate_zero, List.append_nil]
  have htake : (file.take offset).length = offset := by simp; omega
  rw [List.append_assoc, List.drop_append_of_le_length (by omega),
    List.drop_of_length_le (by omega), List.nil_append,
    List.take_append_of_le_length (by omega), List.take_length]

theorem string_replace_pos (s r : List Byte) (pos len n : Nat) (c : Byte)
    (h : string_replace s pos len n c = .ok r) : pos ≤ s.length := by
  unfold string_replace at h
  split at h
  · exact absurd h (by simp)
  · omega

theorem zero_regions_pos (elf z : List Byte) (d s k : section_stat)
    (h : zero_regions elf d s k = .ok z) : d.offset ≤ elf.length := by
  unfold zero_regions at h
  cases h1 : string_replace elf d.offset d.length d.length 0 with
  | error e => rw [h1] at h; exact absurd h (by simp [bind, Except.bind])
  | ok e1 => exact string_replace_pos _ _ _ _ _ _ h1

/-- What a successful computation of the digest in part 3 has gone through. -/
theorem compute_digest_ok (elf : List Byte) (d : section_stat) (dg : md5.md5_t)
    (h : compute_digest elf = .ok (d, dg)) :
    ∃ s k z,
      (appimage_get_elf_section_offset_and_length elf digest_md5_name).result = .ok d
      ∧ (appimage_get_elf_section_offset_and_length elf sha256_sig_name).result = .ok s
      ∧ (appimage_get_elf_section_offset_and_length elf sig_key_name).result = .ok k
      ∧ 16 ≤ d.length
      ∧ zero_regions elf d s k = .ok z
      ∧ dg = md5.calculate z := by
  cases hd : (appimage_get_elf_section_offset_and_length elf digest_md5_name).result with
  | error e =>
    unfold compute_digest at h
    rw [hd] at h
    exact absurd h (by simp [bind, Except.bind])
  | ok d' =>
    cases hs : (appimage_get_elf_section_offset_and_length elf sha256_sig_name).result with
    | error e =>
      unfold compute_digest at h
      rw [hd, hs] at h
      exact absurd h (by simp [bind, Except.bind])
    | ok s =>
      cases hk : (appimage_get_elf_section_offset_and_length elf sig_key_name).result with
      | error e =>
        unfold compute_digest at h
        rw [hd, hs, hk] at h
        exact absurd h (by simp [bind, Except.bind])
      | ok k =>
        rw [compute_digest_eq elf d' s k hd hs hk] at h
        split at h
        · exact absurd h (by simp)
        · rename_i hlen
          cases hz : zero_regions elf d' s k with
          | error e => rw [hz] at h; exact absurd h (by simp)
          | ok z =>
            rw [hz] at h
            simp only [Except.ok.injEq, Prod.mk.injEq] at h
            obtain ⟨h1, h2⟩ := h
            subst h1
            refine ⟨s, k, z, rfl, rfl, rfl, ?_, hz, h2.symm⟩
            simp only [md5.size] at hlen
            omega

set_option maxRecDepth 100000 in
/-- C11, as stated, fails on `elf_sig_in_digest`: the run of part 3 succeeds,
the region `[260, 268)` of `.sha256_sig` lies inside the 16 positions
`[256, 272)` that receive the digest, and its bytes are not left as they
were. -/
theorem c11_signature_region_overwritten :
    (appimage_get_elf_section_offset_and_length elf_sig_in_digest digest_md5_name).result
      = .ok ⟨256, 16⟩
    ∧ (appimage_get_elf_section_offset_and_length elf_sig_in_digest sha256_sig_name).result
      = .ok ⟨260, 8⟩
    ∧ (embed_digest ⟨true, true, 16⟩ elf_sig_in_digest).result = .ok ()
    ∧ (elf_sig_in_digest.drop 260).take 8 = [0xaf, 0xb6, 0xbd, 0xc4, 0xcb, 0xd2, 0xd9, 0xe0]
    ∧ ((embed_digest ⟨true, true, 16⟩ elf_sig_in_digest).file.drop 260).take 8
      = [0x67, 0x0c, 0x74, 0xdc, 0x26, 0x12, 0x84, 0xf9] := by
  decide

/-- C11, amended: part 3 leaves the file untouched, without any operation on
it, when the computation of the digest fails; and on a successful run it
performs one `fopen`, one `fseek` to the offset of the digest region and one
`fwrite` of the 16 bytes of `md5::calculate` of the zeroed in-memory copy, so
that the file changes only at the 16 positions
`[digest.offset, digest.offset + 16)`, which lie inside the digest region and
hold these 16 bytes afterwards; every other byte of the file is left as it
was, in particular the whole signature and signing-key regions when they do
not overlap those 16 positions. -/
theorem c11_digest_stage_frame (io : io_outcome) (f : List Byte) :
    (∀ e, compute_digest f = .error e → embed_digest io f = ⟨.error e, [], f⟩)
    ∧ ((embed_digest io f).result = .ok () →
      ∃ d s k z,
        (appimage_get_elf_section_offset_and_length f digest_md5_name).result = .ok d
        ∧ (appimage_get_elf_section_offset_and_length f sha256_sig_name).result = .ok s
        ∧ (appimage_get_elf_section_offset_and_length f sig_key_name).result = .ok k
        ∧ zero_regions f d s k = .ok z
        ∧ (embed_digest io f).ops
            = [.fopen, .fseek d.offset, .fwrite (md5.calculate z).b]
        ∧ (embed_digest io f).file = write_at f d.offset (md5.calculate z).b
        ∧ (∀ p, d.offset ≤ p → p < d.offset + 16 → in_region d p)
        ∧ (((embed_digest io f).file).drop d.offset).take 16 = (md5.calculate z).b
        ∧ (∀ p, ¬ (d.offset ≤ p ∧ p < d.offset + 16) →
            ((embed_digest io f).file)[p]? = f[p]?)
        ∧ (∀ r : section_stat,
            (∀ p, in_region r p → ¬ (d.offset ≤ p ∧ p < d.offset + 16)) →
            ∀ p, in_region r p → ((embed_digest io f).file)[p]? = f[p]?)) := by
  constructor
  · intro e he
    unfold embed_digest
    rw [he]
  · intro hok
    cases hc : compute_digest f with
    | error e =>
      unfold embed_digest at hok
      rw [hc] at hok
      exact absurd hok (by simp)
    | ok r =>
      obtain ⟨d, dg⟩ := r
      obtain ⟨s, k, z, hd, hs, hk, hlen, hz, hdg⟩ := compute_digest_ok f d dg hc
      subst hdg
      have hbl : (md5.calculate z).b.length = 16 := md5_b_length _
      have hio : io.fopen_ok = true ∧ io.fseek_ok = true ∧ 16 ≤ io.fwrite_count := by
        unfold embed_digest at hok
        rw [hc] at hok
        simp only at hok
        cases h1 : io.fopen_ok with
        | false => rw [h1] at hok; simp at hok
        | true =>
          cases h2 : io.fseek_ok with
          | false => rw [h1, h2] at hok; simp at hok
          | true =>
            rw [h1, h2] at hok
            simp only [Bool.not_true, Bool.false_eq_true, if_false, md5.size] at hok
            refine ⟨rfl, rfl, ?_⟩
            by_contra hlt
            rw [if_pos (by omega)] at hok
            exact absurd hok (by simp)
      obtain ⟨hopen, hseek, hwrite⟩ := hio
      have htake : (md5.calculate z).b.take io.fwrite_count = (md5.calculate z).b :=
        List.take_of_length_le (by omega)
      have hfile : (embed_digest io f).file = write_at f d.offset (md5.calculate z).b := by
        unfold embed_digest
        rw [hc]
        simp only [hopen, hseek, Bool.not_true, Bool.false_eq_true, if_false, htake]
      have hops : (embed_digest io f).ops
          = [.fopen, .fseek d.offset, .fwrite (md5.calculate z).b] := by
        unfold embed_digest
        rw [hc]
        simp only [hopen, hseek, Bool.not_true, Bool.false_eq_true, if_false, htake]
      have hpos : d.offset ≤ f.length := zero_regions_pos f z d s k hz
      have hframe : ∀ p, ¬ (d.offset ≤ p ∧ p < d.offset + 16) →
          ((embed_digest io f).file)[p]? = f[p]? := by
        intro p hp
        rw [hfile]
        exact write_at_outside f _ d.offset hpos p (by rw [hbl]; omega)
      refine ⟨d, s, k, z, hd, hs, hk, hz, hops, hfile, ?_, ?_, hframe, ?_⟩
      · intro p h1 h2
        unfold in_region
        omega
      · rw [hfile]
        have := write_at_inside f (md5.calculate z).b d.offset hpos
        rw [hbl] at this
        exact this
      · intro r hr p hp
        exact hframe p (hr p hp)

set_option maxRecDepth 100000 in
/-- C11, amended, on `sample_elf`: the run succeeds and the regions of the
signature and of the signing key are left as they were. -/
theorem c11_digest_stage_frame_witness :
    (embed_digest ⟨true, true, 16⟩ sample_elf).result = .ok ()
    ∧ ∃ d s k z,
        (appimage_get_elf_section_offset_and_length sample_elf digest_md5_name).result = .ok d
        ∧ (appimage_get_elf_section_offset_and_length sample_elf sha256_sig_name).result
            = .ok s
        ∧ (appimage_get_elf_section_offset_and_length sample_elf sig_key_name).result = .ok k
        ∧ zero_regions sample_elf d s k = .ok z
        ∧ (embed_digest ⟨true, true, 16⟩ sample_elf).ops
            = [.fopen, .fseek d.offset, .fwrite (md5.calculate z).b]
        ∧ (embed_digest ⟨true, true, 16⟩ sample_elf).file
            = write_at sample_elf d.offset (md5.calculate z).b
        ∧ (∀ p, d.offset ≤ p → p < d.offset + 16 → in_region d p)
        ∧ (((embed_digest ⟨true, true, 16⟩ sample_elf).file).drop d.offset).take 16
            = (md5.calculate z).b
        ∧ (∀ p, ¬ (d.offset ≤ p ∧ p < d.offset + 16) →
            ((embed_digest ⟨true, true, 16⟩ sample_elf).file)[p]? = sample_elf[p]?)
        ∧ (∀ r : section_stat,
            (∀ p, in_region r p → ¬ (d.offset ≤ p ∧ p < d.offset + 16)) →
            ∀ p, in_region r p →
              ((embed_digest ⟨true, true, 16⟩ sample_elf).file)[p]? = sample_elf[p]?) := by
  have hok : (embed_digest ⟨true, true, 16⟩ sample_elf).result = .ok () := by decide
  exact ⟨hok, (c11_digest_stage_frame ⟨true, true, 16⟩ sample_elf).2 hok⟩

/-! ## The header embedder and the external program -/

/-- C13 on the code: in part 2 only a failure of `fopen` or of `chmod` ends
the run. Whether `fseek` fails and however few bytes of the runtime `fwrite`
transfers, part 2 completes normally when `fopen` and `chmod` succeed, and
`main` enters the digest stage. -/
theorem c13_seek_and_write_unchecked (fseek_ok : Bool) (fwrite_count : Nat)
    (dio : io_outcome) (runtime built : List Byte) :
    (embed_runtime ⟨true, fseek_ok, fwrite_count, true⟩ runtime built).result = .ok ()
    ∧ (embed_runtime ⟨true, fseek_ok, fwrite_count, true⟩ runtime built).file
        = write_at built 0 (runtime.take fwrite_count)
    ∧ (main_embed ⟨true, fseek_ok, fwrite_count, true⟩ dio runtime built).part3_entered
        = true
    ∧ (∀ hio : header_io, hio.fopen_ok = false ∨ hio.chmod_ok = false →
        (main_embed hio dio runtime built).part3_entered = false
        ∧ ∃ e, (main_embed hio dio runtime built).ending = .thrown e) := by
  refine ⟨rfl, rfl, ?_, ?_⟩
  · unfold main_embed
    simp only [embed_runtime, Bool.not_true, Bool.false_eq_true, if_false]
    split <;> rfl
  · intro hio h
    unfold main_embed embed_runtime
    rcases h with h | h
    · simp only [h, Bool.not_false, if_true]
      exact ⟨trivial, _, rfl⟩
    · cases hio.fopen_ok with
      | false =>
        simp only [Bool.not_false, if_true]
        exact ⟨trivial, _, rfl⟩
      | true =>
        simp only [h, Bool.not_true, Bool.false_eq_true, if_false, Bool.not_false, if_true]
        exact ⟨trivial, _, rfl⟩

/-- C14: `run_external` returns normally exactly when `fork` gave a child
(its value is positive), `waitpid` did not return -1 and the wait status is
that of a child that exited normally with exit status 0; in every other case
of the parent (failed `fork`, failed `waitpid`, non-zero exit status,
termination by a signal) it throws; in the child it throws when `execvp`
fails, the exception is not caught and the child is terminated; and an
exception of `run_external` leaves `main` before part 2. -/
theorem c14_run_external_outcomes (env : process_env) :
    (run_external env = .returned ↔
      0 < env.fork_value ∧ env.waitpid_value ≠ -1 ∧ env.wstatus = .exited 0)
    ∧ (env.fork_value ≠ 0 → run_external env ≠ .returned →
        ∃ e, run_external env = .thrown e)
    ∧ (env.fork_value < 0 → run_external env = .thrown .fork_failed)
    ∧ (0 < env.fork_value → env.waitpid_value = -1 →
        run_external env = .thrown .waitpid_failed)
    ∧ (0 < env.fork_value → env.waitpid_value ≠ -1 → ∀ n, n ≠ 0 →
        env.wstatus = .exited n → run_external env = .thrown (.exited_with_status n))
    ∧ (0 < env.fork_value → env.waitpid_value ≠ -1 → ∀ sig,
        env.wstatus = .signaled sig → ∃ e, run_external env = .thrown e)
    ∧ (env.fork_value = 0 → env.execvp_fails = true →
        run_external env = .thrown .execvp_failed)
    ∧ (∀ hio dio runtime built e, run_external env = .thrown e →
        main_parts env hio dio runtime built = ⟨.thrown e, false, false, built⟩) := by
  obtain ⟨pid, xf, wp, ws⟩ := env
  simp only
  have hcases : pid = 0 ∨ 0 < pid ∨ pid < 0 := by omega
  refine ⟨?_, ?_, ?_, ?_, ?_, ?_, ?_, ?_⟩
  · unfold run_external
    simp only
    rcases hcases with h | h | h
    · subst h
      cases xf <;> simp
    · have h0 : pid ≠ 0 := by omega
      by_cases hw : wp = -1
      · simp [h0, h, hw]
      · cases ws with
        | exited n =>
          by_cases hn : n = 0
          · simp [h0, h, hw, hn, WIFEXITED, WEXITSTATUS]
          · simp [h0, h, hw, hn, WIFEXITED, WEXITSTATUS]
        | signaled sig => simp [h0, h, hw, WIFEXITED, WEXITSTATUS]
    · have h0 : pid ≠ 0 := by omega
      have h1 : ¬ 0 < pid := by omega
      simp [h0, h1]
  · intro h0 hne
    unfold run_external at hne ⊢
    simp only [h0, if_false] at hne ⊢
    by_cases h : pid > 0
    · simp only [h, if_true] at hne ⊢
      by_cases hw : wp = -1
      · simp only [hw, if_true]
        exact ⟨_, rfl⟩
      · simp only [hw, if_false] at hne ⊢
        split
        · rename_i hc
          rw [if_pos hc] at hne
          exact absurd rfl hne
        · exact ⟨_, rfl⟩
    · simp only [h, if_false]
      exact ⟨_, rfl⟩
  · intro h
    unfold run_external
    simp only [show pid ≠ 0 by omega, show ¬ pid > 0 by omega, if_false]
  · intro h hw
    unfold run_external
    simp only [show pid ≠ 0 by omega, show pid > 0 by omega, hw, if_false, if_true]
  · intro h hw n hn hs
    unfold run_external
    simp only [show pid ≠ 0 by omega, show pid > 0 by omega, hw, if_false, if_true, hs,
      WIFEXITED, WEXITSTATUS, Bool.true_and, beq_iff_eq, hn]
  · intro h hw sig hs
    unfold run_external
    simp only [show pid ≠ 0 by omega, show pid > 0 by omega, hw, if_false, if_true, hs,
      WIFEXITED, Bool.false_and, Bool.false_eq_true]
    exact ⟨_, rfl⟩
  · intro h hx
    unfold run_external
    simp only [h, hx, if_true]
  · intro hio dio runtime built e he
    unfold main_parts
    rw [he]

/-! ### The positions read lie in the parsed areas -/

/-- C17: the lookups on the two layouts are the same lookup. When a buffer
of class `ELFCLASS32` and a buffer of class `ELFCLASS64` encode the same
section table (the entries read through the respective layout, with the names
they resolve to, are the same list), the locator takes the 32-bit path on the
first and the 64-bit path on the second, and the two results are equal for
every requested name: the same descriptor, or the same "not found" error. -/
theorem c17_same_lookup (b32 b64 name : List Byte) (tbl : List section_entry)
    (h32 : read_le b32 EI_CLASS 1 = some ELFCLASS32)
    (h64 : read_le b64 EI_CLASS 1 = some ELFCLASS64)
    (t32 : section_table b32 = some tbl) (t64 : section_table b64 = some tbl) :
    (appimage_get_elf_section_offset_and_length b32 name).result
      = (locate_in Elf32 b32 name).result
    ∧ (appimage_get_elf_section_offset_and_length b64 name).result
      = (locate_in Elf64 b64 name).result
    ∧ (appimage_get_elf_section_offset_and_length b32 name).result
      = (appimage_get_elf_section_offset_and_length b64 name).result
    ∧ ((∃ d, lookup tbl name = some d
          ∧ (appimage_get_elf_section_offset_and_length b64 name).result = .ok d)
      ∨ (lookup tbl name = none
          ∧ (appimage_get_elf_section_offset_and_length b64 name).result
            = .error (.section_not_found name))) := by
  have r32 := locate_result b32 name tbl t32
  have r64 := locate_result b64 name tbl t64
  refine ⟨?_, ?_, by rw [r32, r64], ?_⟩
  · simp only [appimage_get_elf_section_offset_and_length, traced.bind_eq,
      traced.andThen_ok (congrArg traced.result (load_ok h32)), if_true]
  · simp only [appimage_get_elf_section_offset_and_length, traced.bind_eq,
      traced.andThen_ok (congrArg traced.result (load_ok h64)), ELFCLASS32, ELFCLASS64,
      if_true]
    rfl
  · rw [r64]
    cases hl : lookup tbl name with
    | some d => exact Or.inl ⟨d, rfl, rfl⟩
    | none => exact Or.inr ⟨rfl, rfl⟩

set_option maxRecDepth 100000 in
/-- C17 on `sample_elf` (32-bit layout) and `sample_elf64` (64-bit layout),
which encode the same section table, for the name `.sig_key`. -/
theorem c17_same_lookup_witness :
    read_le sample_elf EI_CLASS 1 = some ELFCLASS32
    ∧ read_le sample_elf64 EI_CLASS 1 = some ELFCLASS64
    ∧ section_table sample_elf = section_table sample_elf64
    ∧ (appimage_get_elf_section_offset_and_length sample_elf sig_key_name).result
      = (appimage_get_elf_section_offset_and_length sample_elf64 sig_key_name).result := by
  have t32 : section_table sample_elf
      = some [⟨digest_md5_name, 256, 16⟩, ⟨sha256_sig_name, 272, 8⟩, ⟨sig_key_name, 280, 4⟩,
          ⟨[0x2e, 0x73, 0x68, 0x73, 0x74, 0x72, 0x74, 0x61, 0x62], 212, 44⟩] := by decide
  have t64 : section_table sample_elf64
      = some [⟨digest_md5_name, 256, 16⟩, ⟨sha256_sig_name, 272, 8⟩, ⟨sig_key_name, 280, 4⟩,
          ⟨[0x2e, 0x73, 0x68, 0x73, 0x74, 0x72, 0x74, 0x61, 0x62], 212, 44⟩] := by decide
  exact ⟨by decide, by decide, by rw [t32, t64],
    (c17_same_lookup sample_elf sample_elf64 sig_key_name _ (by decide) (by decide)
      t32 t64).2.2.1⟩

